import Mathlib

/-!
The linksRUs text indexer: the in-memory bleve indexer.

A shallow embedding of `textindexer/index` (document model, error values) and of
`textindexer/store/memory/bleve.go` (`Index`, `FindByID`, `Search`, `UpdateScore`,
`copyDoc`, `makeBlevedoc`), followed by theorems about them.

Two layers are given.

* The value layer (`InMemoryBleveIndexer`, `Index`, `FindByID`, `UpdateScore`): the map
  `docs map[string]*index.Document` is a map from keys to document values, an in-place
  write through a stored pointer is an update of the map.
* The pointer layer (namespace `Ptr`): documents live in an explicit heap, the map holds
  references, and every allocation, copy and write through a pointer of the source is a
  heap operation.

The section "The value layer simulates the pointer layer" relates the two: as long as the
map holds only addresses of objects and no two keys share one, which holds from a new
indexer on, each pointer-layer call is the value-layer call on the documents behind the
pointers.

Conventions shared by both layers.

* `sync.RWMutex` is the boolean `mu` (writer lock held).  `Lock` on a held lock never
  returns in a sequential run, so an operation that reaches `Lock`/`RLock` on a held lock
  yields `none`.  `RLock`/`RUnlock` are paired by `defer` inside `findById`, so no reader
  count survives a call.
* The bleve engine is external.  It is a map from key to the projection last written
  successfully; whether a write is accepted is the engine's answer, an argument of the
  operation (`none`: accepted, `some e`: rejected with `e`, nothing written).
* The engine call of `Search` is a function from the request to a page of results or an
  error.  The Go type `int` is 64 bits wide.
* `time.Now()` is an argument of `Index`.
* A `float64` score is only stored and copied, never computed with; it is represented by
  its bit pattern.
-/

/-! ## External types: `uuid.UUID`, `time.Time`, `float64`, `xerrors` -/

/-- The type `uuid.UUID`, a `[16]byte`. -/
structure UUID where
  bytes : List (Fin 256)
  size : bytes.length = 16
deriving DecidableEq

namespace uuid

/-- The value `uuid.Nil`: all sixteen bytes zero. -/
def Nil : UUID := ⟨List.replicate 16 0, by decide⟩

/-- One lower-case hexadecimal digit. -/
def hexDigit (n : Nat) : Char := "0123456789abcdef".toList.getD n '0'

/-- Go `hex.Encode`: two digits per byte, high nibble first. -/
def hexEncode (bs : List (Fin 256)) : List Char :=
  bs.flatMap fun b => [hexDigit (b.val / 16), hexDigit (b.val % 16)]

/-- The helper `encodeHex` of `google/uuid`: groups of 4, 2, 2, 2 and 6 bytes separated
by dashes. -/
def encodeHex (u : List (Fin 256)) : List Char :=
  hexEncode (u.take 4) ++ '-' :: hexEncode ((u.drop 4).take 2) ++ '-' ::
    hexEncode ((u.drop 6).take 2) ++ '-' :: hexEncode ((u.drop 8).take 2) ++ '-' ::
    hexEncode (u.drop 10)

end uuid

/-- The method `UUID.String`: the 36 character canonical form. -/
def UUID.String (u : UUID) : String := String.mk (uuid.encodeHex u.bytes)

/-- A `time.Time` instant, counted from the zero `time.Time`. -/
structure Time where
  ticks : Nat
deriving DecidableEq

/-- The zero value `time.Time{}`. -/
def Time.zero : Time := ⟨0⟩

/-- A `float64`, as its bit pattern. -/
structure float64 where
  bits : Nat
deriving DecidableEq

/-- The `float64` zero value. -/
def float64.zero : float64 := ⟨0⟩

/-- Error values.  `ErrNotFound` and `ErrMissingLinkID` are the two sentinels of
`index/error.go`; `backend n` is an error value produced by the bleve engine;
`wrapError` and `noWrapError` are what `xerrors.Errorf` builds for a format ending in
`: %w` and in `: %v` (the message kept is the format without that suffix). -/
inductive Error where
  | ErrNotFound : Error
  | ErrMissingLinkID : Error
  | backend (n : Nat) : Error
  | wrapError (msg : String) (err : Error) : Error
  | noWrapError (msg : String) (err : Error) : Error
deriving DecidableEq

namespace xerrors

/-- The function `xerrors.Unwrap`: only a `wrapError` has an `Unwrap` method. -/
def Unwrap : Error → Option Error
  | .wrapError _ err => some err
  | _ => none

/-- The function `xerrors.Is` for a non-nil target: walk the `Unwrap` chain of `err`
looking for `target`. -/
def Is : Error → Error → Bool
  | .wrapError msg err, target =>
      decide (Error.wrapError msg err = target) || Is err target
  | err, target => decide (err = target)

/-- The text of `Error()`. -/
def message : Error → String
  | .ErrNotFound => "not found"
  | .ErrMissingLinkID => "document does not provide a valid linkID"
  | .backend n => "bleve error " ++ toString n
  | .wrapError msg err => msg ++ ": " ++ message err
  | .noWrapError msg err => msg ++ ": " ++ message err

end xerrors

/-! ## `index/doc.go` and the projection type of `bleve.go` -/

/-- The struct `index.Document`. -/
structure Document where
  LinkID : UUID
  URL : String
  Title : String
  Content : String
  IndexedAt : Time
  PageRank : float64
deriving DecidableEq

/-- The composite literal `index.Document{LinkID: linkID}`: every other field has its
zero value. -/
def Document.withLinkID (linkID : UUID) : Document :=
  { LinkID := linkID, URL := "", Title := "", Content := "",
    IndexedAt := Time.zero, PageRank := float64.zero }

/-- The struct `bleveDoc`. -/
structure bleveDoc where
  Title : String
  Content : String
  PageRank : float64
deriving DecidableEq

/-- The function `makeBlevedoc`. -/
def makeBlevedoc (doc : Document) : bleveDoc :=
  { Title := doc.Title, Content := doc.Content, PageRank := doc.PageRank }

/-- A Go map assignment `m[key] = v`. -/
def mapSet {β : Type} (m : String → Option β) (key : String) (v : β) : String → Option β :=
  fun k => if k = key then some v else m k

/-- The bleve engine as a map from key to the projection last written successfully. -/
abbrev Engine := String → Option bleveDoc

/-- The engine call `idx.Index(key, data)`: `answer` is what the engine replies; a
rejected write stores nothing. -/
def Engine.Index (idx : Engine) (key : String) (data : bleveDoc) (answer : Option Error) :
    Engine × Option Error :=
  match answer with
  | some e => (idx, some e)
  | none => (mapSet idx key data, none)

/-! ## Value layer -/

/-- The struct `InMemoryBleveIndexer`. -/
structure InMemoryBleveIndexer where
  mu : Bool
  docs : String → Option Document
  idx : Engine

/-- The constructor `NewInMemoryBleveIndexer` (on success of `bleve.NewMemOnly`). -/
def NewInMemoryBleveIndexer : InMemoryBleveIndexer :=
  { mu := false, docs := fun _ => none, idx := fun _ => none }

/-- The function `copyDoc` on values: a new document with the same fields. -/
def copyDoc (d : Document) : Document := d

/-- What a call of `Index` leaves behind: the indexer, the caller's document (the call
writes `IndexedAt` through the pointer it was given) and the returned error. -/
structure IndexResult where
  ix : InMemoryBleveIndexer
  doc : Document
  err : Option Error

/-- The method `Index`.  `now` is the reading of `time.Now()`, `answer` the engine's
reply to the write.  `none`: the call never returns (it waits on `mu`). -/
def Index (i : InMemoryBleveIndexer) (doc : Document) (now : Time) (answer : Option Error) :
    Option IndexResult :=
  if doc.LinkID = uuid.Nil then
    some { ix := i, doc := doc,
           err := some (Error.noWrapError "index" Error.ErrMissingLinkID) }
  else
    let doc := { doc with IndexedAt := now }
    let dcopy := copyDoc doc
    let key := dcopy.LinkID.String
    if i.mu then none
    else
      let i := { i with mu := true }
      let dcopy :=
        match i.docs key with
        | some orig => { dcopy with PageRank := orig.PageRank }
        | none => dcopy
      match Engine.Index i.idx key (makeBlevedoc doc) answer with
      | (idx, some err) =>
          some { ix := { i with idx := idx }, doc := doc,
                 err := some (Error.wrapError "update score" err) }
      | (idx, none) =>
          some { ix := { mu := false, docs := mapSet i.docs key dcopy, idx := idx },
                 doc := doc, err := none }

/-- The method `findById`.  `none`: the call never returns (it waits on `mu`). -/
def findById (i : InMemoryBleveIndexer) (linkID : String) :
    Option (Option Document × Option Error) :=
  if i.mu then none
  else
    match i.docs linkID with
    | some d => some (some (copyDoc d), none)
    | none => some (none, some (Error.wrapError "find by ID" Error.ErrNotFound))

/-- The method `FindByID`. -/
def FindByID (i : InMemoryBleveIndexer) (linkID : UUID) :
    Option (Option Document × Option Error) :=
  findById i linkID.String

/-- The method `UpdateScore`.  `answer` is the engine's reply to the write.  `none`: the
call never returns (it waits on `mu`).  The deferred `Unlock` runs on both returns. -/
def UpdateScore (i : InMemoryBleveIndexer) (linkID : UUID) (score : float64)
    (answer : Option Error) : Option (InMemoryBleveIndexer × Option Error) :=
  if i.mu then none
  else
    let key := linkID.String
    let doc :=
      match i.docs key with
      | some doc => doc
      | none => Document.withLinkID linkID
    let doc := { doc with PageRank := score }
    let docs := mapSet i.docs key doc
    match Engine.Index i.idx key (makeBlevedoc doc) answer with
    | (idx, some err) =>
        some ({ mu := false, docs := docs, idx := idx },
              some (Error.wrapError "update score" err))
    | (idx, none) => some ({ mu := false, docs := docs, idx := idx }, none)

/-! ## Example values -/

/-- The link identifier `01020304-0506-0708-090a-0b0c0d0e0f10`. -/
def exA : UUID := ⟨[1, 2, 3, 4, 5, 6, 7, 8, 9, 10, 11, 12, 13, 14, 15, 16], by decide⟩

/-- The link identifier `f1020304-0506-0708-090a-0b0c0d0e0f10`. -/
def exB : UUID := ⟨[241, 2, 3, 4, 5, 6, 7, 8, 9, 10, 11, 12, 13, 14, 15, 16], by decide⟩

/-- The score 0.9 (IEEE 754 binary64 `0x3FECCCCCCCCCCCCD`). -/
def ex09 : float64 := ⟨0x3FECCCCCCCCCCCCD⟩

/-- The score 0.5 (IEEE 754 binary64 `0x3FE0000000000000`). -/
def ex05 : float64 := ⟨0x3FE0000000000000⟩

/-- A first version of a page. -/
def exD1 : Document :=
  { LinkID := exA, URL := "https://example.com/rust", Title := "Rust",
    Content := "rust systems programming", IndexedAt := ⟨7⟩, PageRank := float64.zero }

/-- A second version of the same page, submitted with a score of its own. -/
def exD2 : Document :=
  { LinkID := exA, URL := "https://example.com/rust", Title := "Rust",
    Content := "rust systems programming language", IndexedAt := ⟨0⟩, PageRank := ex05 }

/-- The indexer after `Index(exD1)` at time 100 on a new indexer. -/
def exR1 : IndexResult :=
  { ix := { mu := false
            docs := mapSet (fun _ => none) exA.String { exD1 with IndexedAt := ⟨100⟩ }
            idx := mapSet (fun _ => none) exA.String (makeBlevedoc exD1) }
    doc := { exD1 with IndexedAt := ⟨100⟩ }
    err := none }

/-- The indexer after `UpdateScore(exA, 0.9)` on `exR1.ix`. -/
def exI2 : InMemoryBleveIndexer :=
  { mu := false
    docs := mapSet exR1.ix.docs exA.String { exD1 with IndexedAt := ⟨100⟩, PageRank := ex09 }
    idx := mapSet exR1.ix.idx exA.String
      (makeBlevedoc { exD1 with IndexedAt := ⟨100⟩, PageRank := ex09 }) }

/-- The indexer after `Index(exD2)` at time 200 on `exI2`. -/
def exR3 : IndexResult :=
  { ix := { mu := false
            docs := mapSet exI2.docs exA.String
              { exD2 with IndexedAt := ⟨200⟩, PageRank := ex09 }
            idx := mapSet exI2.idx exA.String (makeBlevedoc exD2) }
    doc := { exD2 with IndexedAt := ⟨200⟩ }
    err := none }

/-- The indexer after `UpdateScore(exB, 0.5)` on `exI2`, which holds nothing under
`exB`. -/
def exI3 : InMemoryBleveIndexer :=
  { mu := false
    docs := mapSet exI2.docs exB.String { Document.withLinkID exB with PageRank := ex05 }
    idx := mapSet exI2.idx exB.String
      (makeBlevedoc { Document.withLinkID exB with PageRank := ex05 }) }

/-- A document without a link identifier, as a crawler would submit it by mistake. -/
def exNoID : Document :=
  { LinkID := uuid.Nil, URL := "https://example.com/", Title := "Example",
    Content := "example domain", IndexedAt := ⟨7⟩, PageRank := float64.zero }

/-- The indexer after `Index(exD1)` at time 200 on `exI2`: the page is crawled again
unchanged, after its score was set to 0.9. -/
def exR4 : IndexResult :=
  { ix := { mu := false
            docs := mapSet exI2.docs exA.String
              { exD1 with IndexedAt := ⟨200⟩, PageRank := ex09 }
            idx := mapSet exI2.idx exA.String (makeBlevedoc exD1) }
    doc := { exD1 with IndexedAt := ⟨200⟩ }
    err := none }

/-! ## Pointer layer

Documents are objects of a heap and `docs` holds their addresses.  Addresses are never
reused (the collector only reclaims what no pointer reaches), so the heap is a list and
`new` returns its length.  `none` also stands for a nil pointer dereference. -/

namespace Ptr

/-- A pointer `*index.Document`: an address of the heap. -/
abbrev Ref := Nat

/-- The heap: the object at address `r` is the entry `r` of the list. -/
abbrev Heap := List Document

/-- Allocation of a new document object holding `d`; the address is fresh. -/
def alloc (h : Heap) (d : Document) : Heap × Ref := (h ++ [d], h.length)

/-- The struct `InMemoryBleveIndexer`, with `docs map[string]*index.Document`. -/
structure InMemoryBleveIndexer where
  mu : Bool
  docs : String → Option Ref
  idx : Engine

/-- The constructor `NewInMemoryBleveIndexer`. -/
def NewInMemoryBleveIndexer : InMemoryBleveIndexer :=
  { mu := false, docs := fun _ => none, idx := fun _ => none }

/-- The function `copyDoc`: `dcopy := new(index.Document); *dcopy = *d`. -/
def copyDoc (h : Heap) (d : Ref) : Option (Heap × Ref) :=
  match h[d]? with
  | some v => some (alloc h v)
  | none => none

/-- The method `Index` on a pointer `doc`. -/
def Index (h : Heap) (i : InMemoryBleveIndexer) (doc : Ref) (now : Time)
    (answer : Option Error) : Option (Heap × InMemoryBleveIndexer × Option Error) :=
  match h[doc]? with
  | none => none
  | some d =>
    if d.LinkID = uuid.Nil then
      some (h, i, some (Error.noWrapError "index" Error.ErrMissingLinkID))
    else
      -- doc.IndexedAt = time.Now()
      let h := h.set doc { d with IndexedAt := now }
      match copyDoc h doc with
      | none => none
      | some (h, dcopy) =>
        match h[dcopy]? with
        | none => none
        | some c =>
          let key := c.LinkID.String
          if i.mu then none
          else
            let i := { i with mu := true }
            -- if orig, exists := i.docs[key]; exists { dcopy.PageRank = orig.PageRank }
            let h' : Option Heap :=
              match i.docs key with
              | some orig =>
                match h[orig]? with
                | some o => some (h.set dcopy { c with PageRank := o.PageRank })
                | none => none
              | none => some h
            match h' with
            | none => none
            | some h =>
              match h[doc]? with
              | none => none
              | some d' =>
                match Engine.Index i.idx key (makeBlevedoc d') answer with
                | (idx, some err) =>
                    some (h, { i with idx := idx },
                          some (Error.wrapError "update score" err))
                | (idx, none) =>
                    some (h, { mu := false, docs := mapSet i.docs key dcopy, idx := idx },
                          none)

/-- The method `findById`: the returned pointer is that of the copy. -/
def findById (h : Heap) (i : InMemoryBleveIndexer) (linkID : String) :
    Option (Heap × Option Ref × Option Error) :=
  if i.mu then none
  else
    match i.docs linkID with
    | some d =>
      match copyDoc h d with
      | some (h, c) => some (h, some c, none)
      | none => none
    | none => some (h, none, some (Error.wrapError "find by ID" Error.ErrNotFound))

/-- The method `FindByID`. -/
def FindByID (h : Heap) (i : InMemoryBleveIndexer) (linkID : UUID) :
    Option (Heap × Option Ref × Option Error) :=
  findById h i linkID.String

/-- The method `UpdateScore`: the score is written through the stored pointer. -/
def UpdateScore (h : Heap) (i : InMemoryBleveIndexer) (linkID : UUID) (score : float64)
    (answer : Option Error) : Option (Heap × InMemoryBleveIndexer × Option Error) :=
  if i.mu then none
  else
    let key := linkID.String
    -- doc, found := i.docs[key]; if !found { doc = &index.Document{...}; i.docs[key] = doc }
    let (h, docs, doc) :=
      match i.docs key with
      | some doc => (h, i.docs, doc)
      | none =>
        let (h, doc) := alloc h (Document.withLinkID linkID)
        (h, mapSet i.docs key doc, doc)
    match h[doc]? with
    | none => none
    | some d =>
      -- doc.PageRank = score
      let h := h.set doc { d with PageRank := score }
      match h[doc]? with
      | none => none
      | some d' =>
        match Engine.Index i.idx key (makeBlevedoc d') answer with
        | (idx, some err) =>
            some (h, { mu := false, docs := docs, idx := idx },
                  some (Error.wrapError "update score" err))
        | (idx, none) => some (h, { mu := false, docs := docs, idx := idx }, none)

/-- What a caller can do between two reads: call the indexer, allocate a document, or
overwrite a document through a pointer. -/
inductive Call where
  | index (doc : Ref) (now : Time) (answer : Option Error) : Call
  | find (linkID : UUID) : Call
  | score (linkID : UUID) (s : float64) (answer : Option Error) : Call
  | make (v : Document) : Call
  | store (r : Ref) (v : Document) : Call

/-- One call, on the heap and the indexer. -/
def exec (c : Call) (w : Heap × InMemoryBleveIndexer) : Option (Heap × InMemoryBleveIndexer) :=
  match c with
  | .index doc now answer => (Index w.1 w.2 doc now answer).map fun r => (r.1, r.2.1)
  | .find linkID => (FindByID w.1 w.2 linkID).map fun r => (r.1, w.2)
  | .score linkID s answer => (UpdateScore w.1 w.2 linkID s answer).map fun r => (r.1, r.2.1)
  | .make v => some ((alloc w.1 v).1, w.2)
  | .store r v => some (w.1.set r v, w.2)

/-- A sequence of calls, each of which returns. -/
def execs : List Call → Heap × InMemoryBleveIndexer → Option (Heap × InMemoryBleveIndexer)
  | [], w => some w
  | c :: cs, w => (exec c w).bind (execs cs)

/-- What the caller reads from the result of `FindByID`: the document behind the
returned pointer, and the error. -/
def seen (res : Option (Heap × Option Ref × Option Error)) :
    Option (Option Document × Option Error) :=
  res.map fun r => (r.2.1.bind fun p => r.1[p]?, r.2.2)

/-- Every pointer of the map is the address of an object. -/
def WF (h : Heap) (i : InMemoryBleveIndexer) : Prop :=
  ∀ key r, i.docs key = some r → r < h.length

/-- The pointer `r` is stored in the map. -/
def Held (i : InMemoryBleveIndexer) (r : Ref) : Prop :=
  ∃ key, i.docs key = some r

end Ptr

namespace Ptr

/-- The heap after `Index` of the document at address 0 of the heap `[exD1]`, at time
100: the caller's document, stamped, and its copy at address 1. -/
def exHeap : Heap := [{ exD1 with IndexedAt := ⟨100⟩ }, { exD1 with IndexedAt := ⟨100⟩ }]

/-- The indexer after that call: the map holds address 1 under `exA`. -/
def exIx : InMemoryBleveIndexer :=
  { mu := false
    docs := mapSet (fun _ => none) exA.String 1
    idx := mapSet (fun _ => none) exA.String (makeBlevedoc exD1) }

end Ptr

/-! ## The value layer as a view of the pointer layer -/

/-- The value-layer indexer seen through the pointers of the map. -/
def abstraction (h : Ptr.Heap) (i : Ptr.InMemoryBleveIndexer) : InMemoryBleveIndexer :=
  { mu := i.mu, docs := fun key => (i.docs key).bind fun r => h[r]?, idx := i.idx }

/-- No two keys of the map hold the same pointer. -/
def Ptr.Unshared (i : Ptr.InMemoryBleveIndexer) : Prop :=
  ∀ k1 k2 r, i.docs k1 = some r → i.docs k2 = some r → k1 = k2

/-- The map after a call is the map before, or the map before with one key assigned the
first new address. -/
def Ptr.Stores (h : Ptr.Heap) (i i1 : Ptr.InMemoryBleveIndexer) : Prop :=
  i1.docs = i.docs ∨ ∃ key, i1.docs = mapSet i.docs key h.length

/-- The document that a successful `Index` stores: the caller's fields, the clock
reading, and the score already held under the key when there is one. -/
def storedByIndex (i : InMemoryBleveIndexer) (doc : Document) (now : Time) : Document :=
  { doc with
    IndexedAt := now
    PageRank :=
      match i.docs doc.LinkID.String with
      | some orig => orig.PageRank
      | none => doc.PageRank }

/-- The heap only grows, and every pointer the map has gained is a new address. -/
def Ptr.Grows (h : Ptr.Heap) (i : Ptr.InMemoryBleveIndexer) (h1 : Ptr.Heap)
    (i1 : Ptr.InMemoryBleveIndexer) :
    Prop :=
  h.length ≤ h1.length ∧
    ∀ key r, i1.docs key = some r → i.docs key = some r ∨ (h.length ≤ r ∧ r < h1.length)

/-! ## Sequences of writes on the value layer -/

/-- A call of one of the two writers, with the clock reading and the engine's reply. -/
inductive Write where
  | index (doc : Document) (now : Time) (answer : Option Error) : Write
  | score (linkID : UUID) (s : float64) (answer : Option Error) : Write

/-- One writer call that returns, whatever error it returns. -/
def Write.apply (w : Write) (i : InMemoryBleveIndexer) : Option InMemoryBleveIndexer :=
  match w with
  | .index doc now answer => (Index i doc now answer).map fun r => r.ix
  | .score linkID s answer => (UpdateScore i linkID s answer).map fun r => r.1

/-- A sequence of writer calls, each of which returns. -/
def applyAll : List Write → InMemoryBleveIndexer → Option InMemoryBleveIndexer
  | [], i => some i
  | w :: ws, i => (w.apply i).bind (applyAll ws)

/-- Every entry of the map is stored under the string form of its own LinkID. -/
def Keyed (i : InMemoryBleveIndexer) : Prop :=
  ∀ key d, i.docs key = some d → key = d.LinkID.String

/-- No entry of the map carries the nil LinkID. -/
def NoNilID (i : InMemoryBleveIndexer) : Prop :=
  ∀ key d, i.docs key = some d → d.LinkID ≠ uuid.Nil

/-! ## `index/indexer.go`: queries, and the method `Search` of `bleve.go` -/

/-- The type `index.QueryType`, a `uint8`. -/
abbrev QueryType := Fin 256

/-- The constant `index.QueryTypeMatch`. -/
def QueryTypeMatch : QueryType := 0

/-- The constant `index.QueryTypePhrase`. -/
def QueryTypePhrase : QueryType := 1

/-- The struct `index.Query`.  `Typ` is the field `Type`; `Offset` is a `uint64`, a
natural number below `2 ^ 64`. -/
structure Query where
  Typ : QueryType
  Expression : String
  Offset : Nat

/-- The two bleve queries that `Search` builds: `bleve.NewMatchPhraseQuery` and
`bleve.NewMatchQuery`. -/
inductive BleveQuery where
  | MatchPhraseQuery (phrase : String) : BleveQuery
  | MatchQuery (terms : String) : BleveQuery
deriving DecidableEq

/-- One bleve sort key: a document field, the relevance `_score`, or the document id,
each ascending or descending. -/
inductive SearchSort where
  | field (name : String) (desc : Bool) : SearchSort
  | score (desc : Bool) : SearchSort
  | docID (desc : Bool) : SearchSort
deriving DecidableEq

/-- The bleve function `ParseSearchSortString`: a leading `-` asks for descending order,
a leading `+` is dropped; `_id` and `_score` are the two special keys. -/
def ParseSearchSortString (input : String) : SearchSort :=
  let parsed : Bool × List Char :=
    match input.data with
    | '-' :: rest => (true, rest)
    | '+' :: rest => (false, rest)
    | cs => (false, cs)
  if parsed.2 = "_id".data then SearchSort.docID parsed.1
  else if parsed.2 = "_score".data then SearchSort.score parsed.1
  else SearchSort.field (String.mk parsed.2) parsed.1

/-- The struct `bleve.SearchRequest`, as far as `Search` sets it.  `SortOrder` is the
field `Sort`. -/
structure SearchRequest where
  Query : BleveQuery
  Size : Int
  From : Int
  SortOrder : List SearchSort
deriving DecidableEq

/-- The bleve function `NewSearchRequest`: ten results from position 0, sorted by
descending relevance. -/
def NewSearchRequest (q : BleveQuery) : SearchRequest :=
  { Query := q, Size := 10, From := 0, SortOrder := [SearchSort.score true] }

/-- The bleve method `SearchRequest.SortBy`. -/
def SearchRequest.SortBy (r : SearchRequest) (order : List String) : SearchRequest :=
  { r with SortOrder := order.map ParseSearchSortString }

/-- The constant `bacthSize`. -/
def bacthSize : Int := 10

/-- The Go conversion `int(x)` of a `uint64`, for the 64-bit `int` of amd64 and arm64:
the same bit pattern read in two's complement. -/
def intOfUint64 (x : Nat) : Int :=
  if x % 2 ^ 64 < 2 ^ 63 then ((x % 2 ^ 64 : Nat) : Int)
  else ((x % 2 ^ 64 : Nat) : Int) - 2 ^ 64

/-- The struct `bleve.SearchResult`, a page of results: the keys of the hits and the
total number of matches. -/
structure SearchResult where
  Hits : List String
  Total : Nat
deriving DecidableEq

/-- The struct `bleveIterator`, whose declaration is not part of the sources at hand:
the fields that the composite literal in `Search` sets.  The field `idx`, a pointer to
the indexer itself, is left out. -/
structure bleveIterator where
  searchReq : SearchRequest
  rs : SearchResult
  cumIdx : Nat
deriving DecidableEq

/-- The method `Search`.  `engine` is the engine call `idx.Search`, which answers a
request with a page of results or with an error.  `Search` takes no lock. -/
def Search (_i : InMemoryBleveIndexer) (q : Query)
    (engine : SearchRequest → Except Error SearchResult) :
    Option bleveIterator × Option Error :=
  let bq :=
    if q.Typ = QueryTypePhrase then BleveQuery.MatchPhraseQuery q.Expression
    else BleveQuery.MatchQuery q.Expression
  let searchReq := NewSearchRequest bq
  let searchReq := searchReq.SortBy ["-PageRank", "-_score"]
  let searchReq := { searchReq with Size := bacthSize }
  let searchReq := { searchReq with From := intOfUint64 q.Offset }
  match engine searchReq with
  | .error err => (none, some (Error.wrapError "search" err))
  | .ok rs => (some { searchReq := searchReq, rs := rs, cumIdx := q.Offset }, none)

/-! ## More example values -/

/-- The indexer after the engine rejects `Index(exD2)` at time 200 on `exI2`. -/
def exR5 : IndexResult :=
  { ix := { exI2 with mu := true }
    doc := { exD2 with IndexedAt := ⟨200⟩ }
    err := some (Error.wrapError "update score" (Error.backend 1)) }

/-- The indexer after `UpdateScore(uuid.Nil, 0.5)` on a new indexer. -/
def exINil : InMemoryBleveIndexer :=
  { mu := false
    docs := mapSet (fun _ => none) uuid.Nil.String
      { Document.withLinkID uuid.Nil with PageRank := ex05 }
    idx := mapSet (fun _ => none) uuid.Nil.String
      (makeBlevedoc { Document.withLinkID uuid.Nil with PageRank := ex05 }) }

/-- A query for the terms `rust systems` with the largest `uint64` offset. -/
def exQMax : Query :=
  { Typ := QueryTypeMatch, Expression := "rust systems", Offset := 2 ^ 64 - 1 }

/-- A phrase query with offset 20. -/
def exQ20 : Query :=
  { Typ := QueryTypePhrase, Expression := "systems programming", Offset := 20 }

/-- An engine that answers every request with one hit, the key of `exA`. -/
def exEngineHit : SearchRequest → Except Error SearchResult :=
  fun _ => .ok { Hits := [exA.String], Total := 1 }

/-- The indexer after the engine rejects `Index(exD2)` at time 200 on `exI3`. -/
def exR6 : IndexResult :=
  { ix := { exI3 with mu := true }
    doc := { exD2 with IndexedAt := ⟨200⟩ }
    err := some (Error.wrapError "update score" (Error.backend 1)) }

/-- The request that `Search` builds for `exQMax`. -/
def exReqMax : SearchRequest :=
  { Query := BleveQuery.MatchQuery "rust systems", Size := 10, From := -1
    SortOrder := [SearchSort.field "PageRank" true, SearchSort.score true] }

/-! # Theorems -/

/-! ## Shared lemmas on the value layer -/

theorem mapSet_same {β : Type} (m : String → Option β) (key : String) (v : β) :
    mapSet m key v key = some v := by
  simp [mapSet]

theorem mapSet_other {β : Type} (m : String → Option β) (key k : String) (v : β)
    (h : k ≠ key) : mapSet m key v k = m k := by
  simp [mapSet, h]

/-- Shape of a successful `Index`. -/
theorem Index_success {i : InMemoryBleveIndexer} {doc : Document} {now : Time}
    {answer : Option Error} {r : IndexResult}
    (h : Index i doc now answer = some r) (hok : r.err = none) :
    doc.LinkID ≠ uuid.Nil ∧ i.mu = false ∧ answer = none ∧
      r.doc = { doc with IndexedAt := now } ∧ r.ix.mu = false ∧
      r.ix.docs = mapSet i.docs doc.LinkID.String (storedByIndex i doc now) ∧
      r.ix.idx = mapSet i.idx doc.LinkID.String (makeBlevedoc { doc with IndexedAt := now }) := by
  unfold Index at h
  by_cases hnil : doc.LinkID = uuid.Nil
  · simp [hnil] at h
    subst h
    simp at hok
  · cases hmu : i.mu
    · cases answer with
      | some e =>
        simp [hnil, hmu, Engine.Index] at h
        subst h
        simp at hok
      | none =>
        simp only [hnil, hmu, Engine.Index, copyDoc, if_false] at h
        cases hd : i.docs doc.LinkID.String <;>
          simp [hd] at h <;> subst h <;> simp [storedByIndex, hd, hnil]
    · simp [hnil, hmu] at h

/-- Shape of a returning `UpdateScore`: the map holds the score under the key whatever
the engine answered, and the lock is released. -/
theorem UpdateScore_returns {i i' : InMemoryBleveIndexer} {linkID : UUID} {score : float64}
    {answer e : Option Error} (h : UpdateScore i linkID score answer = some (i', e)) :
    i.mu = false ∧ i'.mu = false ∧
      i'.docs = mapSet i.docs linkID.String
        { (match i.docs linkID.String with
            | some doc => doc
            | none => Document.withLinkID linkID) with PageRank := score } ∧
      e = answer.map (Error.wrapError "update score") ∧
      i'.idx = (match answer with
        | some _ => i.idx
        | none => mapSet i.idx linkID.String
            { Title := (match i.docs linkID.String with
                | some doc => doc
                | none => Document.withLinkID linkID).Title
              Content := (match i.docs linkID.String with
                | some doc => doc
                | none => Document.withLinkID linkID).Content
              PageRank := score }) := by
  unfold UpdateScore at h
  cases hmu : i.mu
  · cases answer <;> simp [hmu, Engine.Index, makeBlevedoc] at h <;>
      obtain ⟨h1, h2⟩ := h <;> subst h1 <;> subst h2 <;> simp
  · simp [hmu] at h

/-- With the lock free, `findById` answers from the map. -/
theorem findById_free {i : InMemoryBleveIndexer} (hmu : i.mu = false) (key : String) :
    findById i key =
      match i.docs key with
      | some d => some (some d, none)
      | none => some (none, some (Error.wrapError "find by ID" Error.ErrNotFound)) := by
  simp [findById, hmu, copyDoc]

/-! ## C1 to C3: what `FindByID` returns after a successful write -/

/-- C1 (score preservation on re-index).  When `Index(D)` succeeds, `FindByID(D.LinkID)`
afterwards returns a document whose PageRank is the PageRank stored under the key
before the call when the key held a document, and `D.PageRank` when it held none.  In
particular, when a successful `UpdateScore(k, s)` and a successful `Index(D2)` with the
same LinkID follow, `FindByID(k)` returns PageRank `s` together with the content of
`D2`. -/
theorem Index_preserves_score (i : InMemoryBleveIndexer) (D : Document) (now : Time)
    (answer : Option Error) (r : IndexResult)
    (h : Index i D now answer = some r) (hok : r.err = none) :
    (∃ d, FindByID r.ix D.LinkID = some (some d, none) ∧
      d.PageRank =
        match i.docs D.LinkID.String with
        | some prior => prior.PageRank
        | none => D.PageRank) ∧
    (∀ (s : float64) (a2 : Option Error) (i2 : InMemoryBleveIndexer) (D2 : Document)
      (t2 : Time) (a3 : Option Error) (r3 : IndexResult),
      D2.LinkID = D.LinkID → UpdateScore r.ix D.LinkID s a2 = some (i2, none) →
      Index i2 D2 t2 a3 = some r3 → r3.err = none →
      ∃ d, FindByID r3.ix D.LinkID = some (some d, none) ∧
        d.PageRank = s ∧ d.Content = D2.Content) := by
  obtain ⟨-, -, -, -, hmu, hdocs, -⟩ := Index_success h hok
  constructor
  · refine ⟨storedByIndex i D now, ?_, rfl⟩
    rw [FindByID, findById_free hmu, hdocs, mapSet_same]
  · intro s a2 i2 D2 t2 a3 r3 hk hu h3 hok3
    obtain ⟨-, -, hdocs2, -, -⟩ := UpdateScore_returns hu
    obtain ⟨-, -, -, -, hmu3, hdocs3, -⟩ := Index_success h3 hok3
    refine ⟨storedByIndex i2 D2 t2, ?_, ?_, rfl⟩
    · rw [FindByID, findById_free hmu3, hdocs3, hk, mapSet_same]
    · simp [storedByIndex, hk, hdocs2, mapSet_same]

/-- Witness of C1: the scenario of the specification, `Index(exD1)`,
`UpdateScore(exA, 0.9)`, `Index(exD2)` on a new indexer. -/
theorem Index_preserves_score_witness :
    Index NewInMemoryBleveIndexer exD1 ⟨100⟩ none = some exR1 ∧ exR1.err = none ∧
      ∃ d, FindByID exR3.ix exA = some (some d, none) ∧
        d.PageRank = ex09 ∧ d.Content = "rust systems programming language" :=
  ⟨rfl, rfl,
    (Index_preserves_score NewInMemoryBleveIndexer exD1 ⟨100⟩ none exR1 rfl rfl).2
      ex09 none exI2 exD2 ⟨200⟩ none exR3 rfl rfl rfl rfl⟩

/-- C2 (Index/FindByID round trip).  When `Index(D)` succeeds with clock reading `now`,
`FindByID(D.LinkID)` succeeds and returns a document with the LinkID, URL, Title and
Content of `D` and with IndexedAt equal to `now`, whatever IndexedAt `D` carried. -/
theorem Index_FindByID_roundtrip (i : InMemoryBleveIndexer) (D : Document) (now : Time)
    (answer : Option Error) (r : IndexResult)
    (hid : D.LinkID ≠ uuid.Nil)
    (h : Index i D now answer = some r) (hok : r.err = none) :
    ∃ d, FindByID r.ix D.LinkID = some (some d, none) ∧
      d.LinkID = D.LinkID ∧ d.URL = D.URL ∧ d.Title = D.Title ∧
      d.Content = D.Content ∧ d.IndexedAt = now := by
  have _ := hid
  obtain ⟨-, -, -, -, hmu, hdocs, -⟩ := Index_success h hok
  refine ⟨storedByIndex i D now, ?_, rfl, rfl, rfl, rfl, rfl⟩
  rw [FindByID, findById_free hmu, hdocs, mapSet_same]

/-- Witness of C2: `exD2`, submitted with IndexedAt 0, indexed at time 200. -/
theorem Index_FindByID_roundtrip_witness :
    exD2.LinkID ≠ uuid.Nil ∧ Index exI2 exD2 ⟨200⟩ none = some exR3 ∧ exR3.err = none ∧
      ∃ d, FindByID exR3.ix exD2.LinkID = some (some d, none) ∧
        d.LinkID = exD2.LinkID ∧ d.URL = exD2.URL ∧ d.Title = exD2.Title ∧
        d.Content = exD2.Content ∧ d.IndexedAt = ⟨200⟩ :=
  ⟨by decide, rfl, rfl,
    Index_FindByID_roundtrip exI2 exD2 ⟨200⟩ none exR3 (by decide) rfl rfl⟩

/-- C3 (placeholder creation).  When no document is stored under `k` and
`UpdateScore(k, s)` succeeds, `FindByID(k)` succeeds and returns a document with LinkID
`k`, PageRank `s`, empty URL, Title and Content, and the zero IndexedAt. -/
theorem UpdateScore_creates_placeholder (i i' : InMemoryBleveIndexer) (k : UUID)
    (s : float64) (answer : Option Error)
    (habsent : i.docs k.String = none)
    (h : UpdateScore i k s answer = some (i', none)) :
    ∃ d, FindByID i' k = some (some d, none) ∧
      d.LinkID = k ∧ d.PageRank = s ∧ d.URL = "" ∧ d.Title = "" ∧ d.Content = "" ∧
      d.IndexedAt = Time.zero := by
  obtain ⟨-, hmu, hdocs, -, -⟩ := UpdateScore_returns h
  refine ⟨{ Document.withLinkID k with PageRank := s }, ?_, rfl, rfl, rfl, rfl, rfl, rfl⟩
  rw [FindByID, findById_free hmu, hdocs, mapSet_same, habsent]

/-- Witness of C3: `UpdateScore(exB, 0.5)` on an indexer that holds only `exA`. -/
theorem UpdateScore_creates_placeholder_witness :
    exI2.docs exB.String = none ∧ UpdateScore exI2 exB ex05 none = some (exI3, none) ∧
      ∃ d, FindByID exI3 exB = some (some d, none) ∧
        d.LinkID = exB ∧ d.PageRank = ex05 ∧ d.URL = "" ∧ d.Title = "" ∧ d.Content = "" ∧
        d.IndexedAt = Time.zero :=
  ⟨by decide, rfl,
    UpdateScore_creates_placeholder exI2 exI3 exB ex05 none (by decide) rfl⟩

/-! ## C4 and C5: the two sentinel errors -/

/-- C4 (missing key rejection), evaluated on the code.  `Index` of the document `exNoID`,
whose LinkID is `uuid.Nil`, on a new indexer returns at once, leaves the indexer and the
document as they were (IndexedAt is still 7), and its error is
`noWrapError "index" ErrMissingLinkID`, built with the verb `%v`: it has nothing to
unwrap and `xerrors.Is` against `ErrMissingLinkID` is false, whereas the error of
`FindByID` for an absent key, built with `%w`, does satisfy `xerrors.Is` against
`ErrNotFound`. -/
theorem Index_nil_LinkID_error_not_wrapped :
    Index NewInMemoryBleveIndexer exNoID ⟨100⟩ none =
        some { ix := NewInMemoryBleveIndexer, doc := exNoID,
               err := some (Error.noWrapError "index" Error.ErrMissingLinkID) } ∧
      xerrors.Is (Error.noWrapError "index" Error.ErrMissingLinkID)
        Error.ErrMissingLinkID = false ∧
      xerrors.Unwrap (Error.noWrapError "index" Error.ErrMissingLinkID) = none ∧
      FindByID NewInMemoryBleveIndexer exA =
        some (none, some (Error.wrapError "find by ID" Error.ErrNotFound)) ∧
      xerrors.Is (Error.wrapError "find by ID" Error.ErrNotFound) Error.ErrNotFound = true :=
  ⟨rfl, by decide, rfl, rfl, by decide⟩

/-- An `Index` whose engine write is rejected, started with the lock free on a document
with a LinkID: it returns the engine error wrapped, the authoritative map and the
engine map are those before the call, and `mu` is still held, so that `FindByID` on the
state it leaves never returns, for any key. -/
theorem Index_engine_failure_returns (i : InMemoryBleveIndexer) (D : Document)
    (now : Time) (e : Error) (hfree : i.mu = false) (hid : D.LinkID ≠ uuid.Nil) :
    ∃ r, Index i D now (some e) = some r ∧
      r.err = some (Error.wrapError "update score" e) ∧
      r.ix.docs = i.docs ∧ r.ix.idx = i.idx ∧ r.ix.mu = true ∧
      ∀ k, FindByID r.ix k = none := by
  refine ⟨{ ix := { i with mu := true }, doc := { D with IndexedAt := now },
            err := some (Error.wrapError "update score" e) }, ?_, rfl, rfl, rfl, rfl, ?_⟩
  · simp [Index, hid, hfree, Engine.Index, copyDoc]
  · intro k
    simp [FindByID, findById]

/-- C6 (a failed `Index` is atomic on the store), evaluated on the code.  On the
indexer `exI2`, whose lock is free and which holds `exA`, the engine rejects the write
of `Index(exD2)`.  The call returns a non-nil error and the authoritative map and the
engine map are exactly those before the call; but before the call `FindByID(exA)`
returned the stored document and `FindByID(exB)` returned not-found, and on the state
the call leaves neither of them returns, `mu` being still held. -/
theorem Index_engine_failure_blocks_FindByID :
    exI2.mu = false ∧ exD2.LinkID ≠ uuid.Nil ∧
      Index exI2 exD2 ⟨200⟩ (some (Error.backend 1)) = some exR5 ∧
      exR5.err = some (Error.wrapError "update score" (Error.backend 1)) ∧
      exR5.ix.docs = exI2.docs ∧ exR5.ix.idx = exI2.idx ∧
      FindByID exI2 exA =
        some (some { exD1 with IndexedAt := ⟨100⟩, PageRank := ex09 }, none) ∧
      FindByID exI2 exB =
        some (none, some (Error.wrapError "find by ID" Error.ErrNotFound)) ∧
      FindByID exR5.ix exA = none ∧
      FindByID exR5.ix exB = none :=
  ⟨rfl, by decide, rfl, rfl, rfl, rfl, rfl, rfl, rfl, rfl⟩

/-- C7 (store and engine agree), evaluated on the code.  On a new indexer the calls
`Index(exD1)`, `UpdateScore(exA, 0.9)` and `Index(exD1)` all succeed; afterwards the map
holds PageRank 0.9 under `exA` while the projection in the engine, built from the
caller's document and not from the score-adjusted copy, holds PageRank 0: it is not the
projection of the stored document. -/
theorem Index_projects_unadjusted_score :
    Index NewInMemoryBleveIndexer exD1 ⟨100⟩ none = some exR1 ∧ exR1.err = none ∧
      UpdateScore exR1.ix exA ex09 none = some (exI2, none) ∧
      Index exI2 exD1 ⟨200⟩ none = some exR4 ∧ exR4.err = none ∧
      exR4.ix.docs exA.String = some { exD1 with IndexedAt := ⟨200⟩, PageRank := ex09 } ∧
      exR4.ix.idx exA.String =
        some { Title := "Rust", Content := "rust systems programming",
               PageRank := float64.zero } ∧
      exR4.ix.idx exA.String ≠
        some (makeBlevedoc { exD1 with IndexedAt := ⟨200⟩, PageRank := ex09 }) :=
  ⟨rfl, rfl, rfl, rfl, rfl, rfl, rfl, by decide⟩

/-- C8 (`UpdateScore` changes only the score).  When `k` holds the stored document `d`
and `UpdateScore(k, s)` succeeds, `FindByID(k)` returns a document equal to `d` in
LinkID, URL, Title, Content and IndexedAt, with PageRank `s`. -/
theorem UpdateScore_changes_only_score (i i' : InMemoryBleveIndexer) (k : UUID)
    (s : float64) (answer : Option Error) (d : Document)
    (hd : i.docs k.String = some d)
    (h : UpdateScore i k s answer = some (i', none)) :
    ∃ d', FindByID i' k = some (some d', none) ∧
      d'.LinkID = d.LinkID ∧ d'.URL = d.URL ∧ d'.Title = d.Title ∧
      d'.Content = d.Content ∧ d'.IndexedAt = d.IndexedAt ∧ d'.PageRank = s := by
  obtain ⟨-, hmu, hdocs, -, -⟩ := UpdateScore_returns h
  refine ⟨{ d with PageRank := s }, ?_, rfl, rfl, rfl, rfl, rfl, rfl⟩
  rw [FindByID, findById_free hmu, hdocs, mapSet_same, hd]

/-- Witness of C8: `UpdateScore(exA, 0.9)` on the indexer that holds `exD1`. -/
theorem UpdateScore_changes_only_score_witness :
    exR1.ix.docs exA.String = some { exD1 with IndexedAt := ⟨100⟩ } ∧
      UpdateScore exR1.ix exA ex09 none = some (exI2, none) ∧
      ∃ d', FindByID exI2 exA = some (some d', none) ∧
        d'.LinkID = exA ∧ d'.URL = "https://example.com/rust" ∧ d'.Title = "Rust" ∧
        d'.Content = "rust systems programming" ∧ d'.IndexedAt = ⟨100⟩ ∧
        d'.PageRank = ex09 :=
  ⟨rfl, rfl,
    UpdateScore_changes_only_score exR1.ix exI2 exA ex09 none
      { exD1 with IndexedAt := ⟨100⟩ } rfl rfl⟩

/-- C9 (a failed `UpdateScore` leaves the map mutated and the engine stale).  When the
lock is free and the engine rejects the write with `e`, `UpdateScore(k, s)` returns an
error that wraps `e`, the engine map is unchanged, and the authoritative map
nevertheless holds PageRank `s` under `k`: `FindByID(k)` returns the document stored
before with PageRank `s`, or the placeholder for `k` with PageRank `s` when none was
stored. -/
theorem UpdateScore_engine_failure (i : InMemoryBleveIndexer) (k : UUID) (s : float64)
    (e : Error) (hfree : i.mu = false) :
    ∃ i' err, UpdateScore i k s (some e) = some (i', some err) ∧
      xerrors.Unwrap err = some e ∧ xerrors.Is err e = true ∧
      i'.idx = i.idx ∧
      ∃ d, FindByID i' k = some (some d, none) ∧ d.PageRank = s ∧
        (∀ d0, i.docs k.String = some d0 → d = { d0 with PageRank := s }) ∧
        (i.docs k.String = none → d = { Document.withLinkID k with PageRank := s }) := by
  have hIs : xerrors.Is (Error.wrapError "update score" e) e = true := by
    cases e <;> simp [xerrors.Is]
  refine ⟨{ mu := false
            docs := mapSet i.docs k.String
              { (match i.docs k.String with
                  | some doc => doc
                  | none => Document.withLinkID k) with PageRank := s }
            idx := i.idx }, Error.wrapError "update score" e, ?_, rfl, hIs, rfl, ?_⟩
  · simp [UpdateScore, hfree, Engine.Index]
  · refine ⟨{ (match i.docs k.String with
                | some doc => doc
                | none => Document.withLinkID k) with PageRank := s }, ?_, rfl, ?_, ?_⟩
    · simp [FindByID, findById, mapSet, copyDoc]
    · intro d0 h0
      simp [h0]
    · intro h0
      simp [h0]

/-- Witness of C9: the engine rejects `UpdateScore(exA, 0.5)` on `exI2`. -/
theorem UpdateScore_engine_failure_witness :
    exI2.mu = false ∧
      ∃ i' err, UpdateScore exI2 exA ex05 (some (Error.backend 1)) = some (i', some err) ∧
        xerrors.Unwrap err = some (Error.backend 1) ∧
        xerrors.Is err (Error.backend 1) = true ∧ i'.idx = exI2.idx ∧
        ∃ d, FindByID i' exA = some (some d, none) ∧ d.PageRank = ex05 ∧
          (∀ d0, exI2.docs exA.String = some d0 → d = { d0 with PageRank := ex05 }) ∧
          (exI2.docs exA.String = none →
            d = { Document.withLinkID exA with PageRank := ex05 }) :=
  ⟨rfl, UpdateScore_engine_failure exI2 exA ex05 (Error.backend 1) rfl⟩

/-! ## C10: copies are independent (pointer layer) -/

namespace Ptr

theorem Grows.refl (h : Heap) (i : InMemoryBleveIndexer) : Grows h i h i :=
  ⟨le_rfl, fun _ _ hr => Or.inl hr⟩

theorem Grows.wf {h h1 : Heap} {i i1 : InMemoryBleveIndexer} (hg : Grows h i h1 i1)
    (hwf : WF h i) : WF h1 i1 := by
  intro key r hr
  rcases hg.2 key r hr with h0 | ⟨-, h0⟩
  · exact lt_of_lt_of_le (hwf key r h0) hg.1
  · exact h0

theorem Grows.not_held {h h1 : Heap} {i i1 : InMemoryBleveIndexer} (hg : Grows h i h1 i1)
    {r : Ref} (hr : r < h.length) (hn : ¬ Held i r) : r < h1.length ∧ ¬ Held i1 r := by
  refine ⟨lt_of_lt_of_le hr hg.1, ?_⟩
  rintro ⟨key, hk⟩
  rcases hg.2 key r hk with h0 | ⟨h0, -⟩
  · exact hn ⟨key, h0⟩
  · exact absurd hr (not_lt.2 h0)

theorem heap_set_concat (h : Heap) (x y z : Document) (doc : Ref) :
    (h.set doc x ++ [y]).set h.length z = h.set doc x ++ [z] := by
  have hl : h.length = (h.set doc x).length := by simp
  rw [hl, List.set_append_right _ _ (le_refl _)]
  simp

theorem heap_get_concat (h : Heap) (x y : Document) (doc : Ref) :
    (h.set doc x ++ [y])[h.length]? = some y := by
  have hl : h.length = (h.set doc x).length := by simp
  rw [hl, List.getElem?_concat_length]

theorem heap_get_old (h : Heap) (x y : Document) (doc : Ref) (hlt : doc < h.length) :
    (h.set doc x ++ [y])[doc]? = some x := by
  rw [List.getElem?_append_left (by simpa using hlt)]
  simp [List.getElem?_set_self, hlt]

/-- The method `Index` in closed form, for a pointer to the object `d`. -/
theorem Index_eq {h : Heap} {doc : Ref} {d : Document} (hd : h[doc]? = some d)
    (i : InMemoryBleveIndexer) (now : Time) (answer : Option Error) :
    Index h i doc now answer =
      if d.LinkID = uuid.Nil then
        some (h, i, some (Error.noWrapError "index" Error.ErrMissingLinkID))
      else if i.mu then none
      else
        match (match i.docs d.LinkID.String with
          | some orig => ((h.set doc { d with IndexedAt := now } ++
              [{ d with IndexedAt := now }])[orig]?).map fun o => o.PageRank
          | none => some d.PageRank) with
        | none => none
        | some p =>
          some (h.set doc { d with IndexedAt := now } ++
              [{ d with IndexedAt := now, PageRank := p }],
            match answer with
            | some err =>
              ({ i with mu := true }, some (Error.wrapError "update score" err))
            | none =>
              ({ mu := false, docs := mapSet i.docs d.LinkID.String h.length,
                 idx := mapSet i.idx d.LinkID.String
                   (makeBlevedoc { d with IndexedAt := now }) }, none)) := by
  have hlt : doc < h.length := (List.getElem?_eq_some_iff.1 hd).1
  have hset : ∀ x : Document, (h.set doc x)[doc]? = some x := fun x => by
    simp [List.getElem?_set_self, hlt]
  have hne : doc ≠ h.length := Nat.ne_of_lt hlt
  unfold Index
  simp only [hd, copyDoc, alloc, hset, List.length_set, heap_get_concat]
  by_cases hnil : d.LinkID = uuid.Nil
  · simp [hnil]
  · cases hmu : i.mu
    · simp only [hnil, if_false, Bool.false_eq_true]
      cases hk : i.docs d.LinkID.String with
      | none =>
        cases answer <;> simp [heap_get_old, hlt, Engine.Index]
      | some orig =>
        cases ho : (h.set doc { d with IndexedAt := now } ++
            [{ d with IndexedAt := now }])[orig]? with
        | none => simp [ho]
        | some o =>
          cases answer <;>
            simp [ho, heap_set_concat, heap_get_old, hlt, Engine.Index]
    · simp [hnil]

theorem Index_grows {h h1 : Heap} {i i1 : InMemoryBleveIndexer} {doc : Ref} {now : Time}
    {answer e : Option Error} (hi : Index h i doc now answer = some (h1, i1, e)) :
    doc < h.length ∧ Grows h i h1 i1 := by
  cases hd : h[doc]? with
  | none => simp [Index, hd] at hi
  | some d =>
    have hlt : doc < h.length := (List.getElem?_eq_some_iff.1 hd).1
    refine ⟨hlt, ?_⟩
    rw [Index_eq hd] at hi
    split_ifs at hi with hnil hmu
    · simp only [Option.some.injEq, Prod.mk.injEq] at hi
      obtain ⟨rfl, rfl, -⟩ := hi
      exact Grows.refl _ _
    · split at hi
      · cases hi
      · simp only [Option.some.injEq, Prod.mk.injEq] at hi
        obtain ⟨rfl, hi⟩ := hi
        cases answer with
        | some err =>
          simp only [Prod.mk.injEq] at hi
          obtain ⟨rfl, -⟩ := hi
          exact ⟨by simp, fun _ _ hr => Or.inl hr⟩
        | none =>
          simp only [Prod.mk.injEq] at hi
          obtain ⟨rfl, -⟩ := hi
          refine ⟨by simp, fun key r hr => ?_⟩
          by_cases hkey : key = d.LinkID.String
          · simp only [mapSet, hkey, if_true, Option.some.injEq] at hr
            subst hr
            exact Or.inr ⟨le_rfl, by simp⟩
          · simp only [mapSet, hkey, if_false] at hr
            exact Or.inl hr

theorem UpdateScore_grows {h h1 : Heap} {i i1 : InMemoryBleveIndexer} {linkID : UUID}
    {s : float64} {answer e : Option Error}
    (hu : UpdateScore h i linkID s answer = some (h1, i1, e)) : Grows h i h1 i1 := by
  unfold UpdateScore at hu
  cases hmu : i.mu
  · simp only [hmu, if_false, Bool.false_eq_true] at hu
    cases hk : i.docs linkID.String with
    | some doc =>
      simp only [hk] at hu
      cases hd : h[doc]? with
      | none => simp [hd] at hu
      | some d =>
        have hlt : doc < h.length := (List.getElem?_eq_some_iff.1 hd).1
        simp only [hd, List.getElem?_set_self hlt] at hu
        cases answer <;> simp only [Engine.Index, Option.some.injEq, Prod.mk.injEq] at hu <;>
          obtain ⟨rfl, rfl, -⟩ := hu <;>
          exact ⟨by simp, fun key r hr => Or.inl hr⟩
    | none =>
      simp only [hk, alloc, List.getElem?_concat_length] at hu
      have hlt : h.length < (h ++ [Document.withLinkID linkID]).length := by simp
      simp only [List.getElem?_set_self hlt] at hu
      cases answer <;> simp only [Engine.Index, Option.some.injEq, Prod.mk.injEq] at hu <;>
        obtain ⟨rfl, rfl, -⟩ := hu <;>
        · refine ⟨by simp, fun key r hr => ?_⟩
          by_cases hkey : key = linkID.String
          · simp only [mapSet, hkey, if_true, Option.some.injEq] at hr
            subst hr
            exact Or.inr ⟨le_rfl, by simp⟩
          · simp only [mapSet, hkey, if_false] at hr
            exact Or.inl hr
  · simp [hmu] at hu

/-- Shape of a `findById` that returns: the heap is unchanged on an error, and on
success the returned pointer is the one new address, holding the stored document. -/
theorem findById_returns {h h1 : Heap} {i : InMemoryBleveIndexer} {key : String}
    {p : Option Ref} {e : Option Error} (hf : findById h i key = some (h1, p, e)) :
    (p = none ∧ h1 = h ∧ i.docs key = none) ∨
      (∃ r d, i.docs key = some r ∧ h[r]? = some d ∧ p = some h.length ∧ e = none ∧
        h1 = h ++ [d]) := by
  unfold findById at hf
  cases hmu : i.mu
  · simp only [hmu, if_false, Bool.false_eq_true] at hf
    cases hk : i.docs key with
    | none =>
      simp only [hk, Option.some.injEq, Prod.mk.injEq] at hf
      exact Or.inl ⟨hf.2.1.symm, hf.1.symm, rfl⟩
    | some r =>
      simp only [hk, copyDoc, alloc] at hf
      cases hd : h[r]? with
      | none => simp [hd] at hf
      | some d =>
        simp only [hd, Option.some.injEq, Prod.mk.injEq] at hf
        exact Or.inr ⟨r, d, rfl, hd, hf.2.1.symm, hf.2.2.symm, hf.1.symm⟩
  · simp [hmu] at hf

theorem findById_grows {h h1 : Heap} {i : InMemoryBleveIndexer} {key : String}
    {p : Option Ref} {e : Option Error} (hf : findById h i key = some (h1, p, e)) :
    Grows h i h1 i := by
  rcases findById_returns hf with ⟨-, rfl, -⟩ | ⟨r, d, -, -, -, -, rfl⟩
  · exact Grows.refl _ _
  · exact ⟨by simp, fun _ _ hr => Or.inl hr⟩

/-- A write through a pointer that the map does not hold changes nothing of what
`findById` lets the caller read. -/
theorem findById_frame (h : Heap) (i : InMemoryBleveIndexer) (r : Ref) (v : Document)
    (hn : ¬ Held i r) (key : String) :
    seen (findById (h.set r v) i key) = seen (findById h i key) := by
  unfold findById
  cases hmu : i.mu
  · simp only [if_false, Bool.false_eq_true]
    cases hk : i.docs key with
    | none => simp [seen]
    | some r0 =>
      have hne : r ≠ r0 := fun hr => hn ⟨key, hr ▸ hk⟩
      simp only [copyDoc, alloc, List.getElem?_set_ne hne]
      cases hd : h[r0]? with
      | none => simp [seen]
      | some d =>
        have hl : (h.set r v ++ [d])[h.length]? = some d := by
          have hl0 : h.length = (h.set r v).length := by simp
          rw [hl0, List.getElem?_concat_length]
        simp [seen, hd, hl]
  · simp [seen]

theorem exec_grows {c : Call} {h h1 : Heap} {i i1 : InMemoryBleveIndexer}
    (hx : exec c (h, i) = some (h1, i1)) : Grows h i h1 i1 := by
  cases c with
  | index doc now answer =>
    simp only [exec, Option.map_eq_some', Prod.mk.injEq] at hx
    obtain ⟨⟨h2, i2, e⟩, hi, rfl, rfl⟩ := hx
    exact (Index_grows hi).2
  | find linkID =>
    simp only [exec, Option.map_eq_some', Prod.mk.injEq] at hx
    obtain ⟨⟨h2, p, e⟩, hf, rfl, rfl⟩ := hx
    exact findById_grows hf
  | score linkID s answer =>
    simp only [exec, Option.map_eq_some', Prod.mk.injEq] at hx
    obtain ⟨⟨h2, i2, e⟩, hu, rfl, rfl⟩ := hx
    exact UpdateScore_grows hu
  | make v =>
    simp only [exec, alloc, Option.some.injEq, Prod.mk.injEq] at hx
    obtain ⟨rfl, rfl⟩ := hx
    exact ⟨by simp, fun _ _ hr => Or.inl hr⟩
  | store r v =>
    simp only [exec, Option.some.injEq, Prod.mk.injEq] at hx
    obtain ⟨rfl, rfl⟩ := hx
    exact ⟨by simp, fun _ _ hr => Or.inl (by simpa using hr)⟩

theorem Grows.trans {h h1 h2 : Heap} {i i1 i2 : InMemoryBleveIndexer}
    (h01 : Grows h i h1 i1) (h12 : Grows h1 i1 h2 i2) : Grows h i h2 i2 := by
  refine ⟨le_trans h01.1 h12.1, fun key r hr => ?_⟩
  rcases h12.2 key r hr with h0 | ⟨ha, hb⟩
  · rcases h01.2 key r h0 with h00 | ⟨ha, hb⟩
    · exact Or.inl h00
    · exact Or.inr ⟨ha, lt_of_lt_of_le hb h12.1⟩
  · exact Or.inr ⟨le_trans h01.1 ha, hb⟩

theorem execs_grows (cs : List Call) {h h1 : Heap} {i i1 : InMemoryBleveIndexer}
    (hx : execs cs (h, i) = some (h1, i1)) : Grows h i h1 i1 := by
  induction cs generalizing h i with
  | nil =>
    simp only [execs, Option.some.injEq, Prod.mk.injEq] at hx
    obtain ⟨rfl, rfl⟩ := hx
    exact Grows.refl _ _
  | cons c cs ih =>
    simp only [execs, Option.bind_eq_some] at hx
    obtain ⟨⟨h2, i2⟩, hc, hrest⟩ := hx
    exact (exec_grows hc).trans (ih hrest)

/-- C10 (copy independence).  In a state where every pointer of the map is the address
of an object: (1) the pointer returned by `FindByID` is a new address, so it is not one
held in the map; (2) `Index` does not store the pointer it is given: a key that holds it
after the call held it before; (3) for a pointer obtained from `FindByID`, and for the
pointer passed to a completed `Index` when the map did not hold it, after any later
sequence of calls the map still does not hold it, and overwriting the object behind it
with any document leaves what `FindByID` returns unchanged for every key. -/
theorem copy_independence (h : Heap) (i : InMemoryBleveIndexer) (hwf : WF h i) :
    (∀ k h1 r e, FindByID h i k = some (h1, some r, e) →
      h.length ≤ r ∧ ¬ Held i r ∧
      ∀ cs h2 i2, execs cs (h1, i) = some (h2, i2) →
        ¬ Held i2 r ∧
        ∀ v k2, seen (FindByID (h2.set r v) i2 k2) = seen (FindByID h2 i2 k2)) ∧
    (∀ doc now answer h1 i1 e, Index h i doc now answer = some (h1, i1, e) →
      (∀ key, i1.docs key = some doc → i.docs key = some doc) ∧
      (¬ Held i doc →
        ∀ cs h2 i2, execs cs (h1, i1) = some (h2, i2) →
          ¬ Held i2 doc ∧
          ∀ v k2, seen (FindByID (h2.set doc v) i2 k2) = seen (FindByID h2 i2 k2))) := by
  constructor
  · intro k h1 r e hf
    rcases findById_returns hf with ⟨hp, -, -⟩ | ⟨r0, d, -, -, hp, -, rfl⟩
    · cases hp
    · simp only [Option.some.injEq] at hp
      subst hp
      have hfresh : ¬ Held i h.length := fun ⟨key, hk⟩ => lt_irrefl _ (hwf key _ hk)
      refine ⟨le_rfl, hfresh, fun cs h2 i2 hx => ?_⟩
      have hn := (execs_grows cs hx).not_held (r := h.length) (by simp) hfresh
      exact ⟨hn.2, fun v k2 => findById_frame h2 i2 _ v hn.2 _⟩
  · intro doc now answer h1 i1 e hi
    obtain ⟨hlt, hg⟩ := Index_grows hi
    refine ⟨fun key hk => ?_, fun hn cs h2 i2 hx => ?_⟩
    · rcases hg.2 key doc hk with h0 | ⟨h0, -⟩
      · exact h0
      · exact absurd hlt (not_lt.2 h0)
    · have hn2 := (hg.trans (execs_grows cs hx)).not_held hlt hn
      exact ⟨hn2.2, fun v k2 => findById_frame h2 i2 _ v hn2.2 _⟩

/-- Witness of C10: `exD1`, at address 0, is indexed on a new indexer and then
overwritten by its owner with `exD2`; `FindByID(exA)` still returns the indexed copy, at
the new address 2. -/
theorem copy_independence_witness :
    WF [exD1] NewInMemoryBleveIndexer ∧
      Index [exD1] NewInMemoryBleveIndexer 0 ⟨100⟩ none = some (exHeap, exIx, none) ∧
      FindByID exHeap exIx exA = some (exHeap ++ [{ exD1 with IndexedAt := ⟨100⟩ }], some 2, none) ∧
      seen (FindByID (exHeap.set 0 exD2) exIx exA) =
        some (some { exD1 with IndexedAt := ⟨100⟩ }, none) :=
  ⟨(fun _ _ hr => nomatch hr), rfl, rfl,
    (((copy_independence [exD1] NewInMemoryBleveIndexer (fun _ _ hr => nomatch hr)).2
      0 ⟨100⟩ none exHeap exIx none rfl).2 (fun ⟨_, hk⟩ => nomatch hk)
      [] exHeap exIx rfl).2 exD2 exA⟩

end Ptr

/-! ## The value layer simulates the pointer layer -/

theorem abstraction_docs_of_wf {h : Ptr.Heap} {i : Ptr.InMemoryBleveIndexer}
    (hwf : Ptr.WF h i) {key : String} {r : Ptr.Ref} (hk : i.docs key = some r) :
    ∃ d, h[r]? = some d ∧ (abstraction h i).docs key = some d := by
  have hlt := hwf key r hk
  exact ⟨h[r], List.getElem?_eq_getElem hlt, by simp [abstraction, hk, List.getElem?_eq_getElem hlt]⟩

/-- Storing a new address under `k` is an assignment of the value map. -/
theorem abstraction_docs_fresh {h : Ptr.Heap} {i : Ptr.InMemoryBleveIndexer}
    (hwf : Ptr.WF h i) (k : String) (x : Document) :
    (fun key => (mapSet i.docs k h.length key).bind fun r => (h ++ [x])[r]?) =
      mapSet (fun key => (i.docs key).bind fun r => h[r]?) k x := by
  funext key
  by_cases hkey : key = k
  · simp [mapSet, hkey]
  · cases hr : i.docs key with
    | none => simp [mapSet, hkey, hr]
    | some r =>
      have hrl := hwf key r hr
      simp [mapSet, hkey, hr, List.getElem?_append_left hrl]

/-- A write through the pointer stored under `k` is an assignment of the value map,
when no other key holds that pointer. -/
theorem abstraction_docs_set {h : Ptr.Heap} {i : Ptr.InMemoryBleveIndexer}
    (hun : Ptr.Unshared i) {k : String} {r : Ptr.Ref} (hk : i.docs k = some r)
    (hlt : r < h.length) (x : Document) :
    (fun key => (i.docs key).bind fun r0 => (h.set r x)[r0]?) =
      mapSet (fun key => (i.docs key).bind fun r => h[r]?) k x := by
  funext key
  by_cases hkey : key = k
  · simp [mapSet, hkey, hk, List.getElem?_set_self hlt]
  · cases hr : i.docs key with
    | none => simp [mapSet, hkey, hr]
    | some r0 =>
      have hne : r ≠ r0 := fun he => hkey (hun key k r0 hr (he ▸ hk))
      simp [mapSet, hkey, hr, List.getElem?_set_ne hne]

/-- What a caller reads from `Ptr.FindByID` is what the value layer returns. -/
theorem FindByID_simulates (h : Ptr.Heap) (i : Ptr.InMemoryBleveIndexer) (hwf : Ptr.WF h i)
    (k : UUID) : Ptr.seen (Ptr.FindByID h i k) = FindByID (abstraction h i) k := by
  unfold Ptr.FindByID Ptr.findById FindByID findById
  cases hmu : i.mu
  · cases hk : i.docs k.String with
    | none => simp [abstraction, hmu, hk, Ptr.seen]
    | some r =>
      obtain ⟨d, hd, hab⟩ := abstraction_docs_of_wf hwf hk
      simp [hmu, hk, hab, Ptr.copyDoc, Ptr.alloc, hd, Ptr.seen, copyDoc, abstraction]
  · simp [abstraction, hmu, Ptr.seen]

/-- The value layer follows `Ptr.UpdateScore`, write through the stored pointer
included, when no two keys share a pointer. -/
theorem UpdateScore_simulates (h : Ptr.Heap) (i : Ptr.InMemoryBleveIndexer)
    (hwf : Ptr.WF h i) (hun : Ptr.Unshared i) (k : UUID) (s : float64)
    (answer : Option Error) :
    (Ptr.UpdateScore h i k s answer).map (fun r => (abstraction r.1 r.2.1, r.2.2)) =
      UpdateScore (abstraction h i) k s answer := by
  unfold Ptr.UpdateScore UpdateScore
  cases hmu : i.mu
  · cases hk : i.docs k.String with
    | none =>
      have hab : (abstraction h i).docs k.String = none := by simp [abstraction, hk]
      have hlt : h.length < (h ++ [Document.withLinkID k]).length := by simp
      cases answer <;>
        simp [hmu, hk, hab, Ptr.alloc, List.getElem?_set_self hlt, Engine.Index,
          abstraction] <;>
        exact abstraction_docs_fresh hwf _ _
    | some r =>
      obtain ⟨d, hd, hab⟩ := abstraction_docs_of_wf hwf hk
      have hlt := hwf _ r hk
      cases answer <;>
        simp [hmu, hk, hab, hd, List.getElem?_set_self hlt, Engine.Index, abstraction] <;>
        exact abstraction_docs_set hun hk hlt _
  · simp [abstraction, hmu]

theorem heap_get_held {h : Ptr.Heap} {i : Ptr.InMemoryBleveIndexer} (hwf : Ptr.WF h i)
    {doc : Ptr.Ref} (hn : ¬ Ptr.Held i doc) (x y : Document) {key : String} {r : Ptr.Ref}
    (hr : i.docs key = some r) : (h.set doc x ++ [y])[r]? = h[r]? := by
  have hrl : r < (h.set doc x).length := by simpa using hwf key r hr
  have hne : doc ≠ r := fun he => hn ⟨key, he ▸ hr⟩
  rw [List.getElem?_append_left hrl, List.getElem?_set_ne hne]

/-- After the write of `IndexedAt` and the copy made by `Index`, the map reads as
before. -/
theorem abstraction_docs_kept {h : Ptr.Heap} {i : Ptr.InMemoryBleveIndexer}
    (hwf : Ptr.WF h i) {doc : Ptr.Ref} (hn : ¬ Ptr.Held i doc) (x y : Document) :
    (fun key => (i.docs key).bind fun r => (h.set doc x ++ [y])[r]?) =
      fun key => (i.docs key).bind fun r => h[r]? := by
  funext key
  cases hr : i.docs key with
  | none => simp
  | some r => simp [heap_get_held hwf hn x y hr]

/-- Storing the address of the copy made by `Index` is an assignment of the value
map. -/
theorem abstraction_docs_copy {h : Ptr.Heap} {i : Ptr.InMemoryBleveIndexer}
    (hwf : Ptr.WF h i) {doc : Ptr.Ref} (hn : ¬ Ptr.Held i doc) (k : String)
    (x y : Document) :
    (fun key => (mapSet i.docs k h.length key).bind fun r => (h.set doc x ++ [y])[r]?) =
      mapSet (fun key => (i.docs key).bind fun r => h[r]?) k y := by
  funext key
  by_cases hkey : key = k
  · simp [mapSet, hkey, Ptr.heap_get_concat]
  · cases hr : i.docs key with
    | none => simp [mapSet, hkey, hr]
    | some r => simp [mapSet, hkey, hr, heap_get_held hwf hn x y hr]

/-- The value layer follows `Ptr.Index` for a pointer to the object `D` that the map
does not hold; the caller's document afterwards is the object behind that pointer. -/
theorem Index_simulates (h : Ptr.Heap) (i : Ptr.InMemoryBleveIndexer) (hwf : Ptr.WF h i)
    (doc : Ptr.Ref) (D : Document) (hd : h[doc]? = some D) (hn : ¬ Ptr.Held i doc)
    (now : Time) (answer : Option Error) :
    (Ptr.Index h i doc now answer).map
        (fun r => IndexResult.mk (abstraction r.1 r.2.1) ((r.1[doc]?).getD D) r.2.2) =
      Index (abstraction h i) D now answer := by
  have hlt : doc < h.length := (List.getElem?_eq_some_iff.1 hd).1
  rw [Ptr.Index_eq hd]
  unfold Index
  by_cases hnil : D.LinkID = uuid.Nil
  · simp [hnil, hd]
  · cases hmu : i.mu
    · cases hk : i.docs D.LinkID.String with
      | none =>
        have hab : (abstraction h i).docs D.LinkID.String = none := by
          simp [abstraction, hk]
        cases answer <;>
          simp [hnil, hmu, hk, hab, copyDoc, Engine.Index, abstraction,
            Ptr.heap_get_old, hlt, abstraction_docs_kept hwf hn,
            abstraction_docs_copy hwf hn]
      | some orig =>
        obtain ⟨o, ho, hab⟩ := abstraction_docs_of_wf hwf hk
        cases answer <;>
          simp [hnil, hmu, hk, hab, ho, copyDoc, Engine.Index, abstraction,
            Ptr.heap_get_old, hlt, heap_get_held hwf hn _ _ hk,
            abstraction_docs_kept hwf hn, abstraction_docs_copy hwf hn]
    · simp [hnil, hmu, abstraction]

theorem Ptr.Stores.unshared {h : Ptr.Heap} {i i1 : Ptr.InMemoryBleveIndexer}
    (hs : Ptr.Stores h i i1) (hwf : Ptr.WF h i) (hun : Ptr.Unshared i) :
    Ptr.Unshared i1 := by
  rcases hs with hs | ⟨key, hs⟩
  · intro k1 k2 r h1 h2
    rw [hs] at h1 h2
    exact hun k1 k2 r h1 h2
  · intro k1 k2 r h1 h2
    rw [hs] at h1 h2
    by_cases e1 : k1 = key <;> by_cases e2 : k2 = key
    · rw [e1, e2]
    · simp only [mapSet, e1, e2, if_true, if_false, Option.some.injEq] at h1 h2
      exact absurd (hwf k2 r h2) (by rw [← h1]; exact lt_irrefl _)
    · simp only [mapSet, e1, e2, if_true, if_false, Option.some.injEq] at h1 h2
      exact absurd (hwf k1 r h1) (by rw [← h2]; exact lt_irrefl _)
    · simp only [mapSet, e1, e2, if_false] at h1 h2
      exact hun k1 k2 r h1 h2

theorem Ptr.Index_stores {h h1 : Ptr.Heap} {i i1 : Ptr.InMemoryBleveIndexer} {doc : Ptr.Ref}
    {now : Time} {answer e : Option Error}
    (hi : Ptr.Index h i doc now answer = some (h1, i1, e)) : Ptr.Stores h i i1 := by
  cases hd : h[doc]? with
  | none => simp [Ptr.Index, hd] at hi
  | some d =>
    rw [Ptr.Index_eq hd] at hi
    split_ifs at hi with hnil hmu
    · simp only [Option.some.injEq, Prod.mk.injEq] at hi
      exact Or.inl (by rw [← hi.2.1])
    · split at hi
      · cases hi
      · simp only [Option.some.injEq, Prod.mk.injEq] at hi
        obtain ⟨-, hi⟩ := hi
        cases answer with
        | some err =>
          simp only [Prod.mk.injEq] at hi
          exact Or.inl (by rw [← hi.1])
        | none =>
          simp only [Prod.mk.injEq] at hi
          exact Or.inr ⟨d.LinkID.String, by rw [← hi.1]⟩

theorem Ptr.UpdateScore_stores {h h1 : Ptr.Heap} {i i1 : Ptr.InMemoryBleveIndexer}
    {linkID : UUID} {s : float64} {answer e : Option Error}
    (hu : Ptr.UpdateScore h i linkID s answer = some (h1, i1, e)) : Ptr.Stores h i i1 := by
  unfold Ptr.UpdateScore at hu
  cases hmu : i.mu
  · simp only [hmu, if_false, Bool.false_eq_true] at hu
    cases hk : i.docs linkID.String with
    | some doc =>
      simp only [hk] at hu
      cases hd : h[doc]? with
      | none => simp [hd] at hu
      | some d =>
        have hlt : doc < h.length := (List.getElem?_eq_some_iff.1 hd).1
        simp only [hd, List.getElem?_set_self hlt] at hu
        cases answer <;> simp only [Engine.Index, Option.some.injEq, Prod.mk.injEq] at hu <;>
          exact Or.inl (by rw [← hu.2.1])
    | none =>
      simp only [hk, alloc, List.getElem?_concat_length] at hu
      have hlt : h.length < (h ++ [Document.withLinkID linkID]).length := by simp
      simp only [List.getElem?_set_self hlt] at hu
      cases answer <;> simp only [Engine.Index, Option.some.injEq, Prod.mk.injEq] at hu <;>
        exact Or.inr ⟨linkID.String, by rw [← hu.2.1]⟩
  · simp [hmu] at hu

/-- The two conditions of the simulation hold in a new indexer and after every call. -/
theorem Ptr.exec_keeps_sound {c : Ptr.Call} {h h1 : Ptr.Heap}
    {i i1 : Ptr.InMemoryBleveIndexer} (hx : Ptr.exec c (h, i) = some (h1, i1))
    (hwf : Ptr.WF h i) (hun : Ptr.Unshared i) : Ptr.WF h1 i1 ∧ Ptr.Unshared i1 := by
  refine ⟨(Ptr.exec_grows hx).wf hwf, ?_⟩
  cases c with
  | index doc now answer =>
    simp only [Ptr.exec, Option.map_eq_some', Prod.mk.injEq] at hx
    obtain ⟨⟨h2, i2, e⟩, hi, -, rfl⟩ := hx
    exact (Ptr.Index_stores hi).unshared hwf hun
  | find linkID =>
    simp only [Ptr.exec, Option.map_eq_some', Prod.mk.injEq] at hx
    obtain ⟨-, -, -, rfl⟩ := hx
    exact hun
  | score linkID s answer =>
    simp only [Ptr.exec, Option.map_eq_some', Prod.mk.injEq] at hx
    obtain ⟨⟨h2, i2, e⟩, hu, -, rfl⟩ := hx
    exact (Ptr.UpdateScore_stores hu).unshared hwf hun
  | make v =>
    simp only [Ptr.exec, Option.some.injEq, Prod.mk.injEq] at hx
    obtain ⟨-, rfl⟩ := hx
    exact hun
  | store r v =>
    simp only [Ptr.exec, Option.some.injEq, Prod.mk.injEq] at hx
    obtain ⟨-, rfl⟩ := hx
    exact hun

theorem Ptr.execs_keep_sound (cs : List Ptr.Call) {h1 : Ptr.Heap}
    {i1 : Ptr.InMemoryBleveIndexer}
    (hx : Ptr.execs cs ([], Ptr.NewInMemoryBleveIndexer) = some (h1, i1)) :
    Ptr.WF h1 i1 ∧ Ptr.Unshared i1 := by
  have key : ∀ (cs : List Ptr.Call) (h : Ptr.Heap) (i : Ptr.InMemoryBleveIndexer),
      Ptr.WF h i → Ptr.Unshared i → Ptr.execs cs (h, i) = some (h1, i1) →
      Ptr.WF h1 i1 ∧ Ptr.Unshared i1 := by
    intro cs
    induction cs with
    | nil =>
      intro h i hwf hun hx
      simp only [Ptr.execs, Option.some.injEq, Prod.mk.injEq] at hx
      obtain ⟨rfl, rfl⟩ := hx
      exact ⟨hwf, hun⟩
    | cons c cs ih =>
      intro h i hwf hun hx
      simp only [Ptr.execs, Option.bind_eq_some] at hx
      obtain ⟨⟨h2, i2⟩, hc, hrest⟩ := hx
      obtain ⟨hwf2, hun2⟩ := Ptr.exec_keeps_sound hc hwf hun
      exact ih h2 i2 hwf2 hun2 hrest
  exact key cs [] _ (by simp [Ptr.WF, Ptr.NewInMemoryBleveIndexer])
    (by simp [Ptr.Unshared, Ptr.NewInMemoryBleveIndexer]) hx

/-! ## The string form of a link identifier is injective -/

theorem uuid.hexDigit_injective :
    ∀ a b : Fin 16, uuid.hexDigit a.val = uuid.hexDigit b.val → a = b := by
  decide

theorem uuid.hexByte_injective (a b : Fin 256)
    (hhi : uuid.hexDigit (a.val / 16) = uuid.hexDigit (b.val / 16))
    (hlo : uuid.hexDigit (a.val % 16) = uuid.hexDigit (b.val % 16)) : a = b := by
  have h1 := uuid.hexDigit_injective ⟨a.val / 16, by omega⟩ ⟨b.val / 16, by omega⟩ hhi
  have h2 := uuid.hexDigit_injective ⟨a.val % 16, by omega⟩ ⟨b.val % 16, by omega⟩ hlo
  simp only [Fin.mk.injEq] at h1 h2
  apply Fin.ext
  omega

theorem uuid.hexEncode_length (l : List (Fin 256)) :
    (uuid.hexEncode l).length = 2 * l.length := by
  induction l with
  | nil => rfl
  | cons a l ih =>
    simp only [uuid.hexEncode, List.flatMap_cons, List.length_append, List.length_cons,
      List.length_nil] at ih ⊢
    omega

theorem uuid.hexEncode_injective :
    ∀ l m : List (Fin 256), uuid.hexEncode l = uuid.hexEncode m → l = m := by
  intro l
  induction l with
  | nil =>
    intro m h
    cases m with
    | nil => rfl
    | cons b m => simp [uuid.hexEncode] at h
  | cons a l ih =>
    intro m h
    cases m with
    | nil => simp [uuid.hexEncode] at h
    | cons b m =>
      simp only [uuid.hexEncode, List.flatMap_cons, List.cons_append, List.nil_append,
        List.cons.injEq] at h
      obtain ⟨hhi, hlo, hrest⟩ := h
      rw [uuid.hexByte_injective a b hhi hlo, ih m hrest]

theorem uuid.encodeHex_injective (u v : List (Fin 256)) (hu : u.length = 16)
    (hv : v.length = 16) (h : uuid.encodeHex u = uuid.encodeHex v) : u = v := by
  unfold uuid.encodeHex at h
  have e5 := List.append_inj h (by simp [uuid.hexEncode_length, hu, hv])
  have e4 := List.append_inj e5.1 (by simp [uuid.hexEncode_length, hu, hv])
  have e3 := List.append_inj e4.1 (by simp [uuid.hexEncode_length, hu, hv])
  have e2 := List.append_inj e3.1 (by simp [uuid.hexEncode_length, hu, hv])
  have t1 := uuid.hexEncode_injective _ _ e2.1
  have t2 := uuid.hexEncode_injective _ _ (List.cons.inj e2.2).2
  have t3 := uuid.hexEncode_injective _ _ (List.cons.inj e3.2).2
  have t4 := uuid.hexEncode_injective _ _ (List.cons.inj e4.2).2
  have t5 := uuid.hexEncode_injective _ _ (List.cons.inj e5.2).2
  have split : ∀ w : List (Fin 256),
      w = w.take 4 ++ ((w.drop 4).take 2 ++ ((w.drop 6).take 2 ++
        ((w.drop 8).take 2 ++ w.drop 10))) := by
    intro w
    have a1 : (w.drop 8).take 2 ++ w.drop 10 = w.drop 8 := by
      have := List.take_append_drop 2 (w.drop 8)
      simpa [List.drop_drop] using this
    have a2 : (w.drop 6).take 2 ++ w.drop 8 = w.drop 6 := by
      have := List.take_append_drop 2 (w.drop 6)
      simpa [List.drop_drop] using this
    have a3 : (w.drop 4).take 2 ++ w.drop 6 = w.drop 4 := by
      have := List.take_append_drop 2 (w.drop 4)
      simpa [List.drop_drop] using this
    rw [a1, a2, a3, List.take_append_drop]
  rw [split u, split v, t1, t2, t3, t4, t5]

/-- The method `UUID.String` is injective. -/
theorem UUID.String_injective (u v : UUID) (h : u.String = v.String) : u = v := by
  obtain ⟨bu, hu⟩ := u
  obtain ⟨bv, hv⟩ := v
  have := uuid.encodeHex_injective bu bv hu hv (congrArg String.data h)
  subst this
  rfl

theorem UUID.String_ne {u v : UUID} (h : u ≠ v) : u.String ≠ v.String :=
  fun he => h (UUID.String_injective u v he)

/-! ## C11: the lock after a call -/

/-- Lock state after an `Index` that started with the lock free: it is held exactly
when the LinkID was not nil and the engine rejected the write. -/
theorem Index_lock_after {i : InMemoryBleveIndexer} {doc : Document} {now : Time}
    {answer : Option Error} {r : IndexResult} (hfree : i.mu = false)
    (h : Index i doc now answer = some r) :
    r.ix.mu = (decide (doc.LinkID ≠ uuid.Nil) && answer.isSome) := by
  unfold Index at h
  by_cases hnil : doc.LinkID = uuid.Nil
  · simp only [hnil, if_true, Option.some.injEq] at h
    subst h
    simp [hfree, hnil]
  · cases answer with
    | some e =>
      simp only [hnil, hfree, Engine.Index, if_false, Bool.false_eq_true,
        Option.some.injEq] at h
      subst h
      simp [hnil]
    | none =>
      simp only [hnil, hfree, Engine.Index, if_false, Bool.false_eq_true,
        Option.some.injEq] at h
      subst h
      simp

/-- C11 (the lock is released on every path), evaluated on the code.  On the indexer
`exI2`, whose lock is free, the engine rejects the write of `Index(exD2)`: the call
returns its error with `mu` still held, and after it `FindByID`, `Index` and
`UpdateScore` never return.  The same rejection in `UpdateScore`, whose `Unlock` is
deferred, leaves the lock free. -/
theorem Index_engine_failure_keeps_lock :
    exI2.mu = false ∧
      Index exI2 exD2 ⟨200⟩ (some (Error.backend 1)) = some exR5 ∧
      exR5.err = some (Error.wrapError "update score" (Error.backend 1)) ∧
      exR5.ix.mu = true ∧
      FindByID exR5.ix exA = none ∧
      Index exR5.ix exD2 ⟨300⟩ none = none ∧
      UpdateScore exR5.ix exA ex05 none = none ∧
      (UpdateScore exI2 exA ex05 (some (Error.backend 1))).map (fun r => r.1.mu) =
        some false :=
  ⟨rfl, rfl, rfl, rfl, rfl, rfl, rfl, rfl⟩

/-! ## C12: the request built by `Search` -/

/-- C12 (the request built by `Search`), evaluated on the code.  For the query
`exQMax`, whose offset is `2 ^ 64 - 1`, and whatever the engine does, the one request
that `Search` hands to the engine is `exReqMax`, which starts at position `-1` and not
at the offset; the iterator built from an answer of the engine would carry the offset
itself as cumulative index. -/
theorem Search_offset_wraps :
    exQMax.Offset < 2 ^ 64 ∧
      (∀ engine : SearchRequest → Except Error SearchResult,
        Search NewInMemoryBleveIndexer exQMax engine =
          match engine exReqMax with
          | .error err => (none, some (Error.wrapError "search" err))
          | .ok rs =>
            (some { searchReq := exReqMax, rs := rs, cumIdx := exQMax.Offset }, none)) ∧
      exReqMax.From = -1 ∧ exReqMax.From ≠ (exQMax.Offset : Int) ∧
      intOfUint64 exQMax.Offset = -1 :=
  ⟨by decide, fun _ => rfl, rfl, by decide, by decide⟩

/-- The request of `Search` in general.  For every query whose offset is a `uint64`,
`Search` passes the engine one request: a phrase query over the expression when the type is
`QueryTypePhrase` and a match query for every other type, page size 10, sorted by
descending PageRank then descending relevance, starting at `int(q.Offset)`, which is
the offset when it is below `2 ^ 63` and the offset minus `2 ^ 64` otherwise.  When the
engine answers with a page, the iterator returned holds that request, that page and
cumulative index `q.Offset`; when it answers with an error, `Search` returns a nil
iterator and the error wrapped. -/
theorem Search_builds_request (i : InMemoryBleveIndexer) (q : Query)
    (engine : SearchRequest → Except Error SearchResult) (hoff : q.Offset < 2 ^ 64) :
    ∃ req : SearchRequest,
      req.Query = (if q.Typ = QueryTypePhrase then BleveQuery.MatchPhraseQuery q.Expression
        else BleveQuery.MatchQuery q.Expression) ∧
      req.Size = 10 ∧
      req.From = (if q.Offset < 2 ^ 63 then (q.Offset : Int) else (q.Offset : Int) - 2 ^ 64) ∧
      (q.Offset < 2 ^ 63 → req.From = (q.Offset : Int)) ∧
      req.SortOrder = [SearchSort.field "PageRank" true, SearchSort.score true] ∧
      (∀ rs, engine req = .ok rs →
        Search i q engine = (some { searchReq := req, rs := rs, cumIdx := q.Offset }, none)) ∧
      (∀ e, engine req = .error e →
        Search i q engine = (none, some (Error.wrapError "search" e))) := by
  have hmod : q.Offset % 2 ^ 64 = q.Offset := Nat.mod_eq_of_lt hoff
  have hfrom : intOfUint64 q.Offset =
      (if q.Offset < 2 ^ 63 then (q.Offset : Int) else (q.Offset : Int) - 2 ^ 64) := by
    simp only [intOfUint64, hmod]
  have hsort : ["-PageRank", "-_score"].map ParseSearchSortString =
      [SearchSort.field "PageRank" true, SearchSort.score true] := by decide
  refine ⟨{ Query := (if q.Typ = QueryTypePhrase then BleveQuery.MatchPhraseQuery q.Expression
              else BleveQuery.MatchQuery q.Expression)
            Size := bacthSize
            From := intOfUint64 q.Offset
            SortOrder := ["-PageRank", "-_score"].map ParseSearchSortString },
    rfl, rfl, hfrom, ?_, hsort, ?_, ?_⟩
  · intro hlt
    simp only [hfrom, hlt, if_true]
  · intro rs hrs
    simp only [Search, NewSearchRequest, SearchRequest.SortBy, hrs]
  · intro e he
    simp only [Search, NewSearchRequest, SearchRequest.SortBy, he]

/-- The phrase query `exQ20`, offset 20, on an engine with one hit. -/
theorem Search_builds_request_example :
    exQ20.Offset < 2 ^ 64 ∧
      Search NewInMemoryBleveIndexer exQ20 exEngineHit =
        (some { searchReq :=
                  { Query := BleveQuery.MatchPhraseQuery "systems programming"
                    Size := 10, From := 20
                    SortOrder := [SearchSort.field "PageRank" true, SearchSort.score true] }
                rs := { Hits := [exA.String], Total := 1 }
                cumIdx := 20 }, none) :=
  ⟨by decide, by
    obtain ⟨req, hq, hsize, -, hfrom, hsort, hok, -⟩ :=
      Search_builds_request NewInMemoryBleveIndexer exQ20 exEngineHit (by decide)
    have hreq : req = { Query := BleveQuery.MatchPhraseQuery "systems programming"
                        Size := 10, From := 20
                        SortOrder := [SearchSort.field "PageRank" true,
                          SearchSort.score true] } := by
      cases req
      simp only at hq hsize hfrom hsort
      have h20 := hfrom (by decide)
      subst hq hsize hsort h20
      rfl
    rw [hok _ rfl, hreq]
    rfl⟩

/-! ## C13 and C15: what the map holds after any sequence of writes -/

/-- The map after an `Index` that returns: the map before, or the map before with the
stored copy assigned to the key of the document. -/
theorem Index_docs {i : InMemoryBleveIndexer} {doc : Document} {now : Time}
    {answer : Option Error} {r : IndexResult} (h : Index i doc now answer = some r) :
    r.ix.docs = i.docs ∨
      (doc.LinkID ≠ uuid.Nil ∧ r.err = none ∧
        r.ix.docs = mapSet i.docs doc.LinkID.String (storedByIndex i doc now)) := by
  cases hr : r.err with
  | none =>
    obtain ⟨hnil, -, -, -, -, hdocs, -⟩ := Index_success h hr
    exact Or.inr ⟨hnil, rfl, hdocs⟩
  | some e =>
    left
    unfold Index at h
    by_cases hnil : doc.LinkID = uuid.Nil
    · simp only [hnil, if_true, Option.some.injEq] at h
      subst h
      rfl
    · cases hmu : i.mu
      · cases answer with
        | some e1 =>
          simp only [hnil, hmu, Engine.Index, if_false, Bool.false_eq_true,
            Option.some.injEq] at h
          subst h
          rfl
        | none =>
          simp only [hnil, hmu, Engine.Index, if_false, Bool.false_eq_true,
            Option.some.injEq] at h
          subst h
          simp at hr
      · simp [hnil, hmu] at h

theorem Write.apply_keyed {w : Write} {i i' : InMemoryBleveIndexer} (hk : Keyed i)
    (h : w.apply i = some i') : Keyed i' := by
  cases w with
  | index doc now answer =>
    simp only [Write.apply, Option.map_eq_some'] at h
    obtain ⟨r, hr, rfl⟩ := h
    intro key d hd
    rcases Index_docs hr with hdocs | ⟨-, -, hdocs⟩
    · exact hk key d (hdocs ▸ hd)
    · rw [hdocs] at hd
      by_cases hkey : key = doc.LinkID.String
      · simp only [mapSet, hkey, if_true, Option.some.injEq] at hd
        subst hd
        exact hkey
      · simp only [mapSet, hkey, if_false] at hd
        exact hk key d hd
  | score linkID s answer =>
    simp only [Write.apply, Option.map_eq_some'] at h
    obtain ⟨⟨i2, e⟩, hr, rfl⟩ := h
    obtain ⟨-, -, hdocs, -, -⟩ := UpdateScore_returns hr
    intro key d hd
    simp only at hd
    rw [hdocs] at hd
    by_cases hkey : key = linkID.String
    · simp only [mapSet, hkey, if_true, Option.some.injEq] at hd
      subst hd
      cases hold : i.docs linkID.String with
      | none => simp [hkey, Document.withLinkID]
      | some d0 =>
        simp only [hkey]
        exact hk _ d0 hold
    · simp only [mapSet, hkey, if_false] at hd
      exact hk key d hd

theorem Write.apply_noNilID {w : Write} {i i' : InMemoryBleveIndexer} (hn : NoNilID i)
    (hw : ∀ k s a, w = Write.score k s a → k ≠ uuid.Nil)
    (h : w.apply i = some i') : NoNilID i' := by
  cases w with
  | index doc now answer =>
    simp only [Write.apply, Option.map_eq_some'] at h
    obtain ⟨r, hr, rfl⟩ := h
    intro key d hd
    rcases Index_docs hr with hdocs | ⟨hnil, -, hdocs⟩
    · exact hn key d (hdocs ▸ hd)
    · rw [hdocs] at hd
      by_cases hkey : key = doc.LinkID.String
      · simp only [mapSet, hkey, if_true, Option.some.injEq] at hd
        subst hd
        exact hnil
      · simp only [mapSet, hkey, if_false] at hd
        exact hn key d hd
  | score linkID s answer =>
    have hne : linkID ≠ uuid.Nil := hw linkID s answer rfl
    simp only [Write.apply, Option.map_eq_some'] at h
    obtain ⟨⟨i2, e⟩, hr, rfl⟩ := h
    obtain ⟨-, -, hdocs, -, -⟩ := UpdateScore_returns hr
    intro key d hd
    simp only at hd
    rw [hdocs] at hd
    by_cases hkey : key = linkID.String
    · simp only [mapSet, hkey, if_true, Option.some.injEq] at hd
      subst hd
      cases hold : i.docs linkID.String with
      | none => simpa [Document.withLinkID] using hne
      | some d0 => exact hn _ d0 hold
    · simp only [mapSet, hkey, if_false] at hd
      exact hn key d hd

theorem applyAll_keyed (ws : List Write) {i i' : InMemoryBleveIndexer} (hk : Keyed i)
    (h : applyAll ws i = some i') : Keyed i' := by
  induction ws generalizing i with
  | nil =>
    simp only [applyAll, Option.some.injEq] at h
    exact h ▸ hk
  | cons w ws ih =>
    simp only [applyAll, Option.bind_eq_some] at h
    obtain ⟨i2, h1, h2⟩ := h
    exact ih (Write.apply_keyed hk h1) h2

theorem applyAll_noNilID (ws : List Write) {i i' : InMemoryBleveIndexer} (hn : NoNilID i)
    (hws : ∀ k s a, Write.score k s a ∈ ws → k ≠ uuid.Nil)
    (h : applyAll ws i = some i') : NoNilID i' := by
  induction ws generalizing i with
  | nil =>
    simp only [applyAll, Option.some.injEq] at h
    exact h ▸ hn
  | cons w ws ih =>
    simp only [applyAll, Option.bind_eq_some] at h
    obtain ⟨i2, h1, h2⟩ := h
    refine ih (Write.apply_noNilID hn (fun k s a hw => ?_) h1)
      (fun k s a hm => hws k s a (List.mem_cons_of_mem _ hm)) h2
    exact hws k s a (hw ▸ List.mem_cons_self _ _)

theorem NewInMemoryBleveIndexer_keyed : Keyed NewInMemoryBleveIndexer :=
  fun _ _ hd => nomatch hd

theorem NewInMemoryBleveIndexer_noNilID : NoNilID NewInMemoryBleveIndexer :=
  fun _ _ hd => nomatch hd

/-- C13 as stated fails: the single call `UpdateScore(uuid.Nil, 0.5)` on a new
indexer succeeds and stores a placeholder whose LinkID is the nil UUID; afterwards
`FindByID(uuid.Nil)` succeeds and returns it. -/
theorem UpdateScore_stores_nil_LinkID :
    applyAll [Write.score uuid.Nil ex05 none] NewInMemoryBleveIndexer = some exINil ∧
      ∃ d, exINil.docs uuid.Nil.String = some d ∧ d.LinkID = uuid.Nil ∧
        FindByID exINil uuid.Nil = some (some d, none) :=
  ⟨rfl, _, rfl, rfl, rfl⟩

/-- C13, amended.  After any sequence of `Index` and `UpdateScore` calls on a new
indexer in which no `UpdateScore` is given the nil UUID, every document held in the map
has a LinkID different from the nil UUID, and whenever the lock is free
`FindByID(uuid.Nil)` fails with an error wrapping `ErrNotFound`. -/
theorem stored_LinkID_not_nil (ws : List Write) (i : InMemoryBleveIndexer)
    (hws : ∀ k s a, Write.score k s a ∈ ws → k ≠ uuid.Nil)
    (h : applyAll ws NewInMemoryBleveIndexer = some i) :
    (∀ key d, i.docs key = some d → d.LinkID ≠ uuid.Nil) ∧
    (i.mu = false →
      FindByID i uuid.Nil =
        some (none, some (Error.wrapError "find by ID" Error.ErrNotFound))) := by
  have hn : NoNilID i := applyAll_noNilID ws NewInMemoryBleveIndexer_noNilID hws h
  have hk : Keyed i := applyAll_keyed ws NewInMemoryBleveIndexer_keyed h
  refine ⟨hn, fun hfree => ?_⟩
  rw [FindByID, findById_free hfree]
  cases hd : i.docs uuid.Nil.String with
  | none => rfl
  | some d =>
    exact absurd (UUID.String_injective _ _ (hk _ d hd)).symm (hn _ d hd)

/-- Witness of C13: `Index(exD1)` then `UpdateScore(exA, 0.9)` on a new indexer. -/
theorem stored_LinkID_not_nil_witness :
    applyAll [Write.index exD1 ⟨100⟩ none, Write.score exA ex09 none]
        NewInMemoryBleveIndexer = some exI2 ∧
      (∀ key d, exI2.docs key = some d → d.LinkID ≠ uuid.Nil) ∧
      (exI2.mu = false →
        FindByID exI2 uuid.Nil =
          some (none, some (Error.wrapError "find by ID" Error.ErrNotFound))) :=
  ⟨rfl,
    stored_LinkID_not_nil [Write.index exD1 ⟨100⟩ none, Write.score exA ex09 none] exI2
      (by
        intro k s a hm
        simp only [List.mem_cons, List.mem_singleton, Write.score.injEq, List.mem_nil_iff,
          or_false, false_or] at hm
        rcases hm with h0 | ⟨h0, -, -⟩
        · cases h0
        · rw [h0]
          decide)
      rfl⟩

/-- C15 (one authoritative document per LinkID).  After any sequence of `Index` and
`UpdateScore` calls on a new indexer, each entry of the map is stored under the string
form of its own LinkID; hence two entries with the same LinkID are one entry, and, the
string form being injective, the document stored under the key of `k` has LinkID `k`. -/
theorem one_document_per_LinkID (ws : List Write) (i : InMemoryBleveIndexer)
    (h : applyAll ws NewInMemoryBleveIndexer = some i) :
    (∀ key d, i.docs key = some d → key = d.LinkID.String) ∧
    (∀ k1 k2 d1 d2, i.docs k1 = some d1 → i.docs k2 = some d2 →
      d1.LinkID = d2.LinkID → k1 = k2) ∧
    (∀ u v : UUID, u.String = v.String → u = v) ∧
    (∀ (k : UUID) d, i.docs k.String = some d → d.LinkID = k) := by
  have hk : Keyed i := applyAll_keyed ws NewInMemoryBleveIndexer_keyed h
  refine ⟨hk, ?_, UUID.String_injective, ?_⟩
  · intro k1 k2 d1 d2 h1 h2 he
    rw [hk k1 d1 h1, hk k2 d2 h2, he]
  · intro k d hd
    exact (UUID.String_injective _ _ (hk _ d hd)).symm

/-- Witness of C15: the indexer `exI3`, reached by three calls, holds `exA` and `exB`. -/
theorem one_document_per_LinkID_witness :
    applyAll [Write.index exD1 ⟨100⟩ none, Write.score exA ex09 none,
        Write.score exB ex05 none] NewInMemoryBleveIndexer = some exI3 ∧
      (∀ key d, exI3.docs key = some d → key = d.LinkID.String) ∧
      (∀ k1 k2 d1 d2, exI3.docs k1 = some d1 → exI3.docs k2 = some d2 →
        d1.LinkID = d2.LinkID → k1 = k2) ∧
      (∀ u v : UUID, u.String = v.String → u = v) ∧
      (∀ (k : UUID) d, exI3.docs k.String = some d → d.LinkID = k) :=
  ⟨rfl,
    one_document_per_LinkID [Write.index exD1 ⟨100⟩ none, Write.score exA ex09 none,
      Write.score exB ex05 none] exI3 rfl⟩

/-! ## C14: how engine errors are reported -/

/-- C14 as stated fails: when the engine rejects the write of `Index(exD2)` on `exI2`
with `backend 1`, the message of the returned error is
`update score: bleve error 1`; it does not start with `index` and the key of the
document occurs nowhere in it. -/
theorem Index_failure_named_update_score :
    Index exI2 exD2 ⟨200⟩ (some (Error.backend 1)) = some exR5 ∧
      exR5.err = some (Error.wrapError "update score" (Error.backend 1)) ∧
      xerrors.message (Error.wrapError "update score" (Error.backend 1)) =
        "update score: bleve error 1" ∧
      ¬ ("index".data <+:
        (xerrors.message (Error.wrapError "update score" (Error.backend 1))).data) ∧
      ¬ (exD2.LinkID.String.data <:+:
        (xerrors.message (Error.wrapError "update score" (Error.backend 1))).data) :=
  ⟨rfl, rfl, by decide, by decide, by decide⟩

/-- C14, amended.  When the engine call fails with `e`, the error returned by `Index`,
by `UpdateScore` and by `Search` wraps `e`: unwrapping it gives `e`.  The message of an
`UpdateScore` failure is `update score: ` followed by the message of `e`, and that of a
`Search` failure is `search: ` followed by the message of `e`; nothing else, and so no
key, is added to either. -/
theorem engine_errors_wrapped (e : Error) (i : InMemoryBleveIndexer) (D : Document)
    (now : Time) (k : UUID) (s : float64) (q : Query)
    (hfree : i.mu = false) (hid : D.LinkID ≠ uuid.Nil) :
    (∃ r err, Index i D now (some e) = some r ∧ r.err = some err ∧
      xerrors.Unwrap err = some e) ∧
    (∃ i' err, UpdateScore i k s (some e) = some (i', some err) ∧
      xerrors.Unwrap err = some e ∧
      xerrors.message err = "update score: " ++ xerrors.message e) ∧
    (∃ err, Search i q (fun _ => .error e) = (none, some err) ∧
      xerrors.Unwrap err = some e ∧
      xerrors.message err = "search: " ++ xerrors.message e) := by
  refine ⟨?_, ?_, ?_⟩
  · exact ⟨{ ix := { i with mu := true }, doc := { D with IndexedAt := now },
             err := some (Error.wrapError "update score" e) },
      Error.wrapError "update score" e,
      by simp [Index, hid, hfree, Engine.Index, copyDoc], rfl, rfl⟩
  · exact ⟨_, Error.wrapError "update score" e,
      by simp only [UpdateScore, hfree, Engine.Index]; rfl, rfl, rfl⟩
  · exact ⟨Error.wrapError "search" e, rfl, rfl, rfl⟩

/-- Witness of C14: the engine fails with `backend 1` on the indexer `exI2`. -/
theorem engine_errors_wrapped_witness :
    exI2.mu = false ∧ exD2.LinkID ≠ uuid.Nil ∧
      (∃ r err, Index exI2 exD2 ⟨200⟩ (some (Error.backend 1)) = some r ∧
        r.err = some err ∧ xerrors.Unwrap err = some (Error.backend 1)) ∧
      (∃ i' err, UpdateScore exI2 exA ex05 (some (Error.backend 1)) = some (i', some err) ∧
        xerrors.Unwrap err = some (Error.backend 1) ∧
        xerrors.message err = "update score: " ++ xerrors.message (Error.backend 1)) ∧
      (∃ err, Search exI2 exQ20 (fun _ => .error (Error.backend 1)) = (none, some err) ∧
        xerrors.Unwrap err = some (Error.backend 1) ∧
        xerrors.message err = "search: " ++ xerrors.message (Error.backend 1)) :=
  ⟨rfl, by decide,
    engine_errors_wrapped (Error.backend 1) exI2 exD2 ⟨200⟩ exA ex05 exQ20 rfl (by decide)⟩

/-! ## C16: a write under one key and the other keys -/

/-- Writes under `k` and the entry of another key `k'`.  An `Index(D)` with
`D.LinkID = k` that returns, with or without an error, leaves the map entry of `k'` as
it was, and `FindByID(k')` returns what it returned before whenever the call leaves the
lock as it found it.  An `UpdateScore(k, s)` that returns, with or without an error,
leaves the result of `FindByID(k')` as it was. -/
theorem writes_keep_other_entries (i : InMemoryBleveIndexer) (k k' : UUID) (hne : k ≠ k') :
    (∀ D now answer r, D.LinkID = k → Index i D now answer = some r →
      r.ix.docs k'.String = i.docs k'.String ∧
      (r.ix.mu = i.mu → FindByID r.ix k' = FindByID i k')) ∧
    (∀ s answer i' e, UpdateScore i k s answer = some (i', e) →
      i'.docs k'.String = i.docs k'.String ∧ FindByID i' k' = FindByID i k') := by
  have hkey : k'.String ≠ k.String := UUID.String_ne (Ne.symm hne)
  constructor
  · intro D now answer r hD h
    have hentry : r.ix.docs k'.String = i.docs k'.String := by
      rcases Index_docs h with hdocs | ⟨-, -, hdocs⟩
      · rw [hdocs]
      · rw [hdocs, hD, mapSet_other _ _ _ _ hkey]
    exact ⟨hentry, fun hmu => by simp only [FindByID, findById, hentry, hmu]⟩
  · intro s answer i' e h
    obtain ⟨hmu, hmu', hdocs, -, -⟩ := UpdateScore_returns h
    have hentry : i'.docs k'.String = i.docs k'.String := by
      rw [hdocs, mapSet_other _ _ _ _ hkey]
    exact ⟨hentry, by simp only [FindByID, findById, hentry, hmu, hmu']⟩

/-- C16 (key isolation), evaluated on the code.  The indexer `exI3`, whose lock is
free, holds `exA` and the placeholder of `exB`, two distinct LinkIDs.  The engine
rejects the write of `Index(exD2)`, a document with LinkID `exA`: the call returns its
error and the map entry of `exB` is the one before the call; but `FindByID(exB)`, which
returned the placeholder before the call, never returns on the state the call leaves,
`mu` being still held.  The same rejection in `UpdateScore(exA, 0.5)` leaves the result
of `FindByID(exB)` as it was. -/
theorem Index_engine_failure_blocks_other_key :
    exA ≠ exB ∧ exD2.LinkID = exA ∧ exI3.mu = false ∧
      Index exI3 exD2 ⟨200⟩ (some (Error.backend 1)) = some exR6 ∧
      exR6.err = some (Error.wrapError "update score" (Error.backend 1)) ∧
      exR6.ix.docs exB.String = exI3.docs exB.String ∧
      FindByID exI3 exB =
        some (some { Document.withLinkID exB with PageRank := ex05 }, none) ∧
      FindByID exR6.ix exB = none ∧
      (UpdateScore exI3 exA ex05 (some (Error.backend 1))).bind
          (fun r => FindByID r.1 exB) =
        FindByID exI3 exB :=
  ⟨by decide, rfl, rfl, rfl, rfl, rfl, rfl, rfl, rfl⟩
